import Mathlib

set_option maxRecDepth 8000

/-!
Verification of the wifi-tracker log-replay engine
(src/wifitracker/tracker.py) against its natural-language specification.

The Python 2 source is shallowly embedded: pure functions become Lean
functions, the chunked generator `Tracker._read_requests_chunk` becomes a
recursion over chunks returning `Except Unit` (the `.error` constructor
models the uncaught `IndexError` raised by `all[0]` on a chunk that decodes
to zero records), and Python 2 value semantics that the code relies on are
modelled explicitly: `None` compares below every `datetime`, string
truthiness (`if ssid:`), and `repr(unicode)[2:-1]` escaping of SSIDs in
`_load_requests`.
-/

namespace WifiTracker

/-! ## Timestamps

`_strptime` builds a `datetime.datetime(year, month, day, hour, minute,
second, microsecond)`.  Comparison of naive datetimes is lexicographic on
those seven fields. -/

/-- A `datetime.datetime` value as constructed by `_strptime`. -/
structure Dts where
  year : Nat
  month : Nat
  day : Nat
  hour : Nat
  minute : Nat
  second : Nat
  microsecond : Nat
deriving DecidableEq

/-- Lexicographic strict comparison of equal-length field lists. -/
def lexLt : List Nat → List Nat → Bool
  | [], [] => false
  | _ :: _, [] => false
  | [], _ :: _ => false
  | a :: as, b :: bs => if a < b then true else if b < a then false else lexLt as bs

/-- The seven comparison fields of a datetime, most significant first. -/
def Dts.fields (d : Dts) : List Nat :=
  [d.year, d.month, d.day, d.hour, d.minute, d.second, d.microsecond]

/-- Python `datetime` comparison `a < b` (lexicographic on the fields). -/
def Dts.lt (a b : Dts) : Bool := lexLt a.fields b.fields

theorem lexLt_irrefl (l : List Nat) : lexLt l l = false := by
  induction l with
  | nil => rfl
  | cons a as ih => simp [lexLt, ih]

theorem Dts.lt_irrefl (d : Dts) : Dts.lt d d = false := lexLt_irrefl _

theorem lexLt_cons_iff {x y : Nat} {xs ys : List Nat} :
    lexLt (x :: xs) (y :: ys) = true ↔ x < y ∨ (x = y ∧ lexLt xs ys = true) := by
  simp only [lexLt]
  split_ifs with h1 h2
  · simp [h1]
  · constructor
    · intro h
      simp at h
    · rintro (h | ⟨h, _⟩) <;> omega
  · have hxy : x = y := by omega
    simp [hxy]

theorem lexLt_trans {a b c : List Nat} (hab : lexLt a b = true)
    (hbc : lexLt b c = true) : lexLt a c = true := by
  induction a generalizing b c with
  | nil => cases b <;> simp [lexLt] at hab
  | cons x xs ih =>
    cases b with
    | nil => simp [lexLt] at hab
    | cons y ys =>
      cases c with
      | nil => simp [lexLt] at hbc
      | cons z zs =>
        rw [lexLt_cons_iff] at hab hbc ⊢
        rcases hab with h | ⟨rfl, h⟩
        · rcases hbc with h2 | ⟨rfl, h2⟩
          · exact Or.inl (lt_trans h h2)
          · exact Or.inl h
        · rcases hbc with h2 | ⟨rfl, h2⟩
          · exact Or.inl h2
          · exact Or.inr ⟨rfl, ih h h2⟩

theorem lexLt_asymm {a b : List Nat} (hab : lexLt a b = true) :
    lexLt b a = false := by
  by_contra h
  have hba : lexLt b a = true := by
    cases hb : lexLt b a
    · exact absurd hb h
    · rfl
  have := lexLt_trans hab hba
  rw [lexLt_irrefl] at this
  exact Bool.false_ne_true this

theorem Dts.lt_asymm {a b : Dts} (h : Dts.lt a b = true) : Dts.lt b a = false :=
  lexLt_asymm h

theorem Dts.lt_trans {a b c : Dts} (hab : Dts.lt a b = true)
    (hbc : Dts.lt b c = true) : Dts.lt a c = true :=
  lexLt_trans hab hbc

/-- Python 2 comparison of a possibly-`None` timestamp with another:
`None` compares strictly below every non-`None` value, and
`None < None` is false.  This is the semantics the source relies on in
`if all[0].capture_dts > load_dts` and `r.capture_dts < load_dts` when a
record has an unparseable (hence `None`) timestamp. -/
def pyDtsLt : Option Dts → Option Dts → Bool
  | none, none => false
  | none, some _ => true
  | some _, none => false
  | some a, some b => Dts.lt a b

/-- Python 2 comparison `a > b` on possibly-`None` timestamps. -/
def pyDtsGt (a b : Option Dts) : Bool := pyDtsLt b a

theorem pyDtsLt_irrefl (a : Option Dts) : pyDtsLt a a = false := by
  cases a <;> simp [pyDtsLt, Dts.lt_irrefl]

/-- Running Python maximum of a list of possibly-`None` timestamps: this is
exactly the accumulation performed by `get_devices` on `last_seen_dts`
(initialise with the first value, then overwrite whenever strictly
greater). -/
def pyMaxDts (l : List (Option Dts)) : Option Dts :=
  l.foldl (fun acc x => if pyDtsLt acc x then x else acc) none

theorem pyMaxDts_nil : pyMaxDts [] = none := rfl

theorem pyMaxDts_append (l : List (Option Dts)) (x : Option Dts) :
    pyMaxDts (l ++ [x]) = if pyDtsLt (pyMaxDts l) x then x else pyMaxDts l := by
  simp [pyMaxDts, List.foldl_append]

theorem pyMaxDts_singleton (x : Option Dts) : pyMaxDts [x] = x := by
  cases x <;> simp [pyMaxDts, pyDtsLt]

/-- On a nonempty list of genuine (non-`None`) timestamps, the Python
running maximum is an element of the list that no element strictly
exceeds. -/
theorem pyMaxDts_spec (l : List Dts) (hne : l ≠ []) :
    ∃ mx, pyMaxDts (l.map some) = some mx ∧ mx ∈ l ∧
      ∀ x ∈ l, Dts.lt mx x = false := by
  induction l using List.reverseRecOn with
  | nil => exact absurd rfl hne
  | append_singleton l x ih =>
    rcases eq_or_ne l [] with rfl | hl
    · refine ⟨x, ?_, by simp, ?_⟩
      · simp [pyMaxDts_singleton]
      · intro y hy
        simp only [List.nil_append, List.mem_singleton] at hy
        rw [hy]
        exact Dts.lt_irrefl x
    · obtain ⟨mx, hmx, hmem, hmax⟩ := ih hl
      rw [List.map_append, List.map_singleton, pyMaxDts_append, hmx]
      by_cases hlt : pyDtsLt (some mx) (some x) = true
      · refine ⟨x, by simp [hlt], by simp, ?_⟩
        intro y hy
        rcases List.mem_append.mp hy with hy | hy
        · by_contra hxy
          have hxy' : Dts.lt x y = true := by
            cases hb : Dts.lt x y
            · exact absurd hb hxy
            · rfl
          have hmxy : Dts.lt mx y = true :=
            Dts.lt_trans (by simpa [pyDtsLt] using hlt) hxy'
          have := hmax y hy
          rw [this] at hmxy
          exact Bool.false_ne_true hmxy
        · simp only [List.mem_singleton] at hy
          rw [hy]
          exact Dts.lt_irrefl x
      · have hlt' : pyDtsLt (some mx) (some x) = false := by
          cases hb : pyDtsLt (some mx) (some x)
          · rfl
          · exact absurd hb hlt
        refine ⟨mx, by simp [hlt'], List.mem_append_left _ hmem, ?_⟩
        intro y hy
        rcases List.mem_append.mp hy with hy | hy
        · exact hmax y hy
        · simp only [List.mem_singleton] at hy
          rw [hy]
          simpa [pyDtsLt] using hlt'

/-! ## Generic list machinery

`chunksOf` models the `islice(file, chunk_size)` loop of
`_read_requests_chunk`: it cuts the sequence of raw lines into consecutive
batches of at most `n` lines and stops on the first empty batch.  With
`n = 0` Python would slice an empty chunk immediately and `break`, yielding
nothing, which the `n = 0` branch reproduces. -/

def chunksOf : Nat → List α → List (List α)
  | _, [] => []
  | 0, _ :: _ => []
  | n + 1, x :: xs => (x :: xs).take (n + 1) :: chunksOf (n + 1) ((x :: xs).drop (n + 1))
termination_by n l => l.length
decreasing_by
  simp only [List.drop_succ_cons, List.length_cons, List.length_drop]
  omega

theorem chunksOf_nil (n : Nat) : chunksOf n ([] : List α) = [] := by
  simp [chunksOf]

theorem chunksOf_cons (n : Nat) (l : List α) (hl : l ≠ []) (hn : n ≠ 0) :
    chunksOf n l = l.take n :: chunksOf n (l.drop n) := by
  cases n with
  | zero => exact absurd rfl hn
  | succ m =>
    cases l with
    | nil => exact absurd rfl hl
    | cons x xs => rw [chunksOf]

theorem join_chunksOf (n : Nat) (l : List α) (hn : n ≠ 0) :
    (chunksOf n l).flatten = l := by
  revert hn
  induction n, l using chunksOf.induct with
  | case1 m =>
    intro _
    simp [chunksOf]
  | case2 y ys =>
    intro h
    exact absurd rfl h
  | case3 m x xs ih =>
    intro _
    rw [chunksOf]
    simp only [List.flatten_cons]
    rw [ih (by omega)]
    exact List.take_append_drop _ _

theorem mem_of_mem_chunksOf (n : Nat) (l : List α) :
    ∀ c ∈ chunksOf n l, ∀ x ∈ c, x ∈ l := by
  induction n, l using chunksOf.induct with
  | case1 m =>
    intro c hc
    rw [chunksOf_nil] at hc
    cases hc
  | case2 y ys =>
    intro c hc
    simp [chunksOf] at hc
  | case3 m y ys ih =>
    intro c hc x hx
    rw [chunksOf] at hc
    rcases List.mem_cons.mp hc with rfl | hc'
    · exact List.mem_of_mem_take hx
    · exact List.mem_of_mem_drop (ih c hc' x hx)

/-- First-occurrence de-duplication: keep each element the first time it
appears and drop later repeats.  This is the order in which `known_ssids`
and `associated_devices` accumulate, and the order of first appearance the
specification describes. -/
def firstDedupAux (seen : List α) [DecidableEq α] : List α → List α
  | [] => []
  | x :: xs => if x ∈ seen then firstDedupAux seen xs else x :: firstDedupAux (x :: seen) xs

def firstDedup [DecidableEq α] (l : List α) : List α := firstDedupAux [] l

theorem firstDedupAux_append_of_mem [DecidableEq α] {seen l : List α} {x : α}
    (hx : x ∈ seen ∨ x ∈ l) :
    firstDedupAux seen (l ++ [x]) = firstDedupAux seen l := by
  induction l generalizing seen with
  | nil =>
    have hx' : x ∈ seen := by
      rcases hx with h | h
      · exact h
      · cases h
    simp [firstDedupAux, hx']
  | cons y ys ih =>
    simp only [List.cons_append, firstDedupAux]
    by_cases hy : y ∈ seen
    · rw [if_pos hy, if_pos hy]
      apply ih
      rcases hx with h | h
      · exact Or.inl h
      · rcases List.mem_cons.mp h with rfl | h'
        · exact Or.inl hy
        · exact Or.inr h'
    · rw [if_neg hy, if_neg hy]
      congr 1
      apply ih
      rcases hx with h | h
      · exact Or.inl (List.mem_cons_of_mem _ h)
      · rcases List.mem_cons.mp h with rfl | h'
        · exact Or.inl (List.mem_cons_self _ _)
        · exact Or.inr h'

theorem firstDedupAux_append_of_not_mem [DecidableEq α] {seen l : List α} {x : α}
    (hs : x ∉ seen) (hl : x ∉ l) :
    firstDedupAux seen (l ++ [x]) = firstDedupAux seen l ++ [x] := by
  induction l generalizing seen with
  | nil => simp [firstDedupAux, hs]
  | cons y ys ih =>
    have hxy : x ≠ y := fun h => hl (h ▸ List.mem_cons_self _ _)
    have hys : x ∉ ys := fun h => hl (List.mem_cons_of_mem _ h)
    simp only [List.cons_append, firstDedupAux]
    by_cases hy : y ∈ seen
    · rw [if_pos hy, if_pos hy]
      exact ih hs hys
    · rw [if_neg hy, if_neg hy, List.cons_append]
      congr 1
      apply ih _ hys
      intro h
      rcases List.mem_cons.mp h with h' | h'
      · exact hxy h'
      · exact hs h'

theorem firstDedup_append_of_mem [DecidableEq α] {l : List α} {x : α} (hx : x ∈ l) :
    firstDedup (l ++ [x]) = firstDedup l :=
  firstDedupAux_append_of_mem (Or.inr hx)

theorem firstDedup_append_of_not_mem [DecidableEq α] {l : List α} {x : α} (hx : x ∉ l) :
    firstDedup (l ++ [x]) = firstDedup l ++ [x] :=
  firstDedupAux_append_of_not_mem (by simp) hx

theorem mem_firstDedupAux [DecidableEq α] {seen l : List α} {x : α} :
    x ∈ firstDedupAux seen l ↔ x ∈ l ∧ x ∉ seen := by
  induction l generalizing seen with
  | nil => simp [firstDedupAux]
  | cons y ys ih =>
    by_cases hy : y ∈ seen
    · rw [show firstDedupAux seen (y :: ys) = firstDedupAux seen ys from by
        simp [firstDedupAux, hy], ih]
      constructor
      · rintro ⟨h1, h2⟩
        exact ⟨List.mem_cons_of_mem _ h1, h2⟩
      · rintro ⟨h1, h2⟩
        rcases List.mem_cons.mp h1 with rfl | h1'
        · exact absurd hy h2
        · exact ⟨h1', h2⟩
    · rw [show firstDedupAux seen (y :: ys) = y :: firstDedupAux (y :: seen) ys from by
        simp [firstDedupAux, hy]]
      constructor
      · intro h
        rcases List.mem_cons.mp h with rfl | h'
        · exact ⟨List.mem_cons_self _ _, hy⟩
        · obtain ⟨h1, h2⟩ := ih.mp h'
          exact ⟨List.mem_cons_of_mem _ h1, fun hs => h2 (List.mem_cons_of_mem _ hs)⟩
      · rintro ⟨h1, h2⟩
        rcases List.mem_cons.mp h1 with rfl | h1'
        · exact List.mem_cons_self _ _
        · rcases eq_or_ne x y with rfl | hxy
          · exact List.mem_cons_self _ _
          · refine List.mem_cons_of_mem _ (ih.mpr ⟨h1', ?_⟩)
            intro hs
            rcases List.mem_cons.mp hs with h' | h'
            · exact hxy h'
            · exact h2 h'

theorem mem_firstDedup [DecidableEq α] {l : List α} {x : α} :
    x ∈ firstDedup l ↔ x ∈ l := by
  rw [firstDedup, mem_firstDedupAux]
  simp

theorem firstDedupAux_nodup [DecidableEq α] (seen l : List α) :
    (firstDedupAux seen l).Nodup := by
  induction l generalizing seen with
  | nil => simp [firstDedupAux]
  | cons y ys ih =>
    by_cases hy : y ∈ seen
    · simpa [firstDedupAux, if_pos hy] using ih seen
    · simp only [firstDedupAux, if_neg hy]
      refine List.Nodup.cons ?_ (ih (y :: seen))
      intro hmem
      exact (mem_firstDedupAux.mp hmem).2 (List.mem_cons_self _ _)

theorem firstDedup_nodup [DecidableEq α] (l : List α) : (firstDedup l).Nodup :=
  firstDedupAux_nodup [] l

/-! ## String-keyed association lists

Python dicts keyed by strings (`devices`, `stations`, `aliases`) are
modelled as association lists: lookup finds the first binding, update
rewrites the bound value in place, and fresh keys are appended. -/

def lookupA {α : Type} : List (String × α) → String → Option α
  | [], _ => none
  | (k, v) :: rest, k' => if k = k' then some v else lookupA rest k'

def updateAssoc {α : Type} : List (String × α) → String → (α → α) → List (String × α)
  | [], _, _ => []
  | (k1, v) :: rest, k, f =>
      (if k1 = k then (k1, f v) else (k1, v)) :: updateAssoc rest k f

theorem lookupA_nil {α : Type} (k : String) : lookupA ([] : List (String × α)) k = none := rfl

theorem lookupA_append_singleton {α : Type} (l : List (String × α)) (k k' : String) (v : α) :
    lookupA (l ++ [(k, v)]) k' =
      match lookupA l k' with
      | some x => some x
      | none => if k = k' then some v else none := by
  induction l with
  | nil => simp [lookupA]
  | cons p rest ih =>
    obtain ⟨k1, v1⟩ := p
    by_cases h : k1 = k'
    · simp [lookupA, h]
    · simpa [lookupA, h] using ih

theorem lookupA_updateAssoc {α : Type} (l : List (String × α)) (k k' : String) (f : α → α) :
    lookupA (updateAssoc l k f) k' =
      if k = k' then (lookupA l k').map f else lookupA l k' := by
  induction l with
  | nil => simp [updateAssoc, lookupA]
  | cons p rest ih =>
    obtain ⟨k1, v1⟩ := p
    simp only [updateAssoc]
    by_cases h1 : k1 = k
    · subst h1
      rw [if_pos rfl]
      by_cases h2 : k1 = k'
      · subst h2
        simp [lookupA]
      · simp [lookupA, h2, ih]
    · rw [if_neg h1]
      have hk : ¬ k = k1 := fun h => h1 h.symm
      by_cases h2 : k1 = k'
      · subst h2
        simp [lookupA, hk]
      · simp [lookupA, h2, ih]

theorem lookupA_isSome_iff {α : Type} (l : List (String × α)) (k : String) :
    (lookupA l k).isSome ↔ k ∈ l.map (·.1) := by
  induction l with
  | nil => simp [lookupA]
  | cons p rest ih =>
    obtain ⟨k1, v1⟩ := p
    by_cases h : k1 = k
    · simp [lookupA, h]
    · simp [lookupA, h, ih, Ne.symm h]

theorem lookupA_eq_none_iff {α : Type} (l : List (String × α)) (k : String) :
    lookupA l k = none ↔ k ∉ l.map (·.1) := by
  rw [← lookupA_isSome_iff]
  cases lookupA l k <;> simp

/-- Folding element-by-element over each chunk in order is the same as
folding over the concatenation of the chunks. -/
theorem foldl_chunks_eq_foldl_flatten {α β : Type} (cs : List (List α))
    (f : β → α → β) (init : β) :
    cs.foldl (fun b c => c.foldl f b) init = cs.flatten.foldl f init := by
  induction cs generalizing init with
  | nil => rfl
  | cons c rest ih => simp [List.flatten_cons, List.foldl_append, ih]

/-! ## Timestamp parsing and formatting

`_strptime` slices fixed positions out of the string and feeds them to
Python `int()`, then calls the `datetime.datetime` constructor, which
validates field ranges and raises on anything out of range (the caller in
`_load_requests` catches that and stores `None`).  `ProbeRequest.__jdict__`
formats a datetime with `strftime('%Y-%m-%d %H:%M:%S.%f')`, i.e.
zero-padded decimal fields of widths 4,2,2,2,2,2,6. -/

/-- Value of a decimal digit character, `none` for any other character. -/
def charDigitVal (c : Char) : Option Nat :=
  if c = '0' then some 0 else if c = '1' then some 1 else if c = '2' then some 2
  else if c = '3' then some 3 else if c = '4' then some 4 else if c = '5' then some 5
  else if c = '6' then some 6 else if c = '7' then some 7 else if c = '8' then some 8
  else if c = '9' then some 9 else none

/-- The decimal digit character for `n % 10`. -/
def digitChar (n : Nat) : Char :=
  if n = 0 then '0' else if n = 1 then '1' else if n = 2 then '2' else if n = 3 then '3'
  else if n = 4 then '4' else if n = 5 then '5' else if n = 6 then '6' else if n = 7 then '7'
  else if n = 8 then '8' else '9'

/-- Accumulate the decimal value of a digit string; any non-digit fails. -/
def parseDigits (l : List Char) : Option Nat :=
  l.foldl (fun acc c => acc.bind (fun a => (charDigitVal c).map (fun v => a * 10 + v))) (some 0)

/-- Digit-string to number; the empty string is rejected like `int('')`. -/
def digitsToNat (l : List Char) : Option Nat :=
  if l = [] then none else parseDigits l

/-- Whitespace stripped by Python `int()` around the literal. -/
def pyIsSpace (c : Char) : Bool :=
  decide (c = ' ' ∨ c = '\t' ∨ c = '\n' ∨ c = '\r' ∨ c = '\x0b' ∨ c = '\x0c')

/-- Strip leading and trailing whitespace, as `int()` does. -/
def stripPy (l : List Char) : List Char :=
  ((l.dropWhile pyIsSpace).reverse.dropWhile pyIsSpace).reverse

/-- Python `int(s)`: optional surrounding whitespace, optional single sign,
then a nonempty run of decimal digits; anything else raises (here:
`none`). -/
def pyInt (l : List Char) : Option Int :=
  match stripPy l with
  | [] => none
  | c :: rest =>
    if c = '-' then (digitsToNat rest).map (fun n => -(n : Int))
    else if c = '+' then (digitsToNat rest).map (fun n => (n : Int))
    else (digitsToNat (c :: rest)).map (fun n => (n : Int))

/-- Zero-padded decimal rendering of `n` to exactly `w` characters
(`strftime` field widths are fixed; fields are always in range so no
digits are lost). -/
def padNat : Nat → Nat → List Char
  | 0, _ => []
  | w + 1, n => padNat w (n / 10) ++ [digitChar (n % 10)]

/-- Python slice `s[a:b]` (clamped, never raising). -/
def pySlice (s : List Char) (a b : Nat) : List Char := (s.drop a).take (b - a)

/-- Gregorian leap year, as `datetime` uses. -/
def isLeap (y : Nat) : Bool := decide (y % 4 = 0 ∧ (y % 100 ≠ 0 ∨ y % 400 = 0))

/-- Days in a month, as validated by the `datetime` constructor. -/
def daysInMonth (y m : Nat) : Nat :=
  if m = 2 then (if isLeap y then 29 else 28)
  else if m = 4 ∨ m = 6 ∨ m = 9 ∨ m = 11 then 30
  else 31

/-- Field ranges accepted by `datetime.datetime(...)`:
`MINYEAR = 1 ≤ year ≤ 9999 = MAXYEAR`, calendar-valid month and day,
and in-range time fields. -/
def validDts (d : Dts) : Bool :=
  decide (1 ≤ d.year ∧ d.year ≤ 9999 ∧ 1 ≤ d.month ∧ d.month ≤ 12 ∧
    1 ≤ d.day ∧ d.day ≤ daysInMonth d.year d.month ∧
    d.hour ≤ 23 ∧ d.minute ≤ 59 ∧ d.second ≤ 59 ∧ d.microsecond ≤ 999999)

/-- The `datetime.datetime` constructor: raises (`none`) on a negative or
out-of-range field, otherwise yields the datetime. -/
def mkDatetime (y mo dy h mi s micro : Int) : Option Dts :=
  if 0 ≤ y ∧ 0 ≤ mo ∧ 0 ≤ dy ∧ 0 ≤ h ∧ 0 ≤ mi ∧ 0 ≤ s ∧ 0 ≤ micro then
    let dt : Dts := ⟨y.toNat, mo.toNat, dy.toNat, h.toNat, mi.toNat, s.toNat, micro.toNat⟩
    if validDts dt then some dt else none
  else none

/-- `_strptime(s)`: parse fixed slices `s[0:4]`, `s[5:7]`, `s[8:10]`,
`s[11:13]`, `s[14:16]`, `s[17:19]`, `s[20:26]` with `int()` and build the
datetime; any failure raises (`none`). -/
def strptime (s : List Char) : Option Dts := do
  let y ← pyInt (pySlice s 0 4)
  let mo ← pyInt (pySlice s 5 7)
  let dy ← pyInt (pySlice s 8 10)
  let h ← pyInt (pySlice s 11 13)
  let mi ← pyInt (pySlice s 14 16)
  let sec ← pyInt (pySlice s 17 19)
  let micro ← pyInt (pySlice s 20 26)
  mkDatetime y mo dy h mi sec micro

/-- `strftime('%Y-%m-%d %H:%M:%S.%f')` on a datetime. -/
def formatDts (d : Dts) : List Char :=
  padNat 4 d.year ++ '-' :: (padNat 2 d.month ++ '-' :: (padNat 2 d.day ++
    ' ' :: (padNat 2 d.hour ++ ':' :: (padNat 2 d.minute ++
    ':' :: (padNat 2 d.second ++ '.' :: padNat 6 d.microsecond)))))

theorem digitChar_facts :
    ∀ k, k < 10 → pyIsSpace (digitChar k) = false ∧ digitChar k ≠ '-' ∧
      digitChar k ≠ '+' ∧ charDigitVal (digitChar k) = some k := by
  decide

theorem padNat_length (w n : Nat) : (padNat w n).length = w := by
  induction w generalizing n with
  | zero => rfl
  | succ w ih => simp [padNat, ih]

theorem padNat_mem {w n : Nat} {c : Char} (hc : c ∈ padNat w n) :
    ∃ k, k < 10 ∧ c = digitChar k := by
  induction w generalizing n with
  | zero => cases hc
  | succ w ih =>
    simp only [padNat] at hc
    rcases List.mem_append.mp hc with h | h
    · exact ih h
    · simp only [List.mem_singleton] at h
      exact ⟨n % 10, Nat.mod_lt _ (by omega), h⟩

theorem parseDigits_append (l : List Char) (c : Char) :
    parseDigits (l ++ [c]) =
      (parseDigits l).bind (fun a => (charDigitVal c).map (fun v => a * 10 + v)) := by
  simp [parseDigits, List.foldl_append]

theorem parseDigits_padNat (w n : Nat) :
    parseDigits (padNat w n) = some (n % 10 ^ w) := by
  induction w generalizing n with
  | zero => simp [padNat, parseDigits, Nat.mod_one]
  | succ w ih =>
    rw [padNat, parseDigits_append, ih]
    have h10 : n % 10 < 10 := Nat.mod_lt _ (by omega)
    rw [(digitChar_facts (n % 10) h10).2.2.2]
    show some ((n / 10 % 10 ^ w) * 10 + n % 10) = some (n % 10 ^ (w + 1))
    congr 1
    have h2 : (10 : Nat) ^ (w + 1) = 10 * 10 ^ w := by ring
    rw [h2, Nat.mod_mul]
    ring

theorem digitsToNat_padNat {w n : Nat} (hw : w ≠ 0) (h : n < 10 ^ w) :
    digitsToNat (padNat w n) = some n := by
  have hne : padNat w n ≠ [] := by
    intro hnil
    have := padNat_length w n
    rw [hnil] at this
    simp at this
    exact hw this.symm
  rw [digitsToNat, if_neg hne, parseDigits_padNat, Nat.mod_eq_of_lt h]

theorem dropWhile_pyIsSpace_of_digits {l : List Char}
    (hl : ∀ c ∈ l, ∃ k, k < 10 ∧ c = digitChar k) :
    l.dropWhile pyIsSpace = l := by
  cases l with
  | nil => rfl
  | cons c rest =>
    obtain ⟨k, hk, rfl⟩ := hl c (List.mem_cons_self _ _)
    rw [List.dropWhile_cons, (digitChar_facts k hk).1]
    simp

theorem stripPy_of_digits {l : List Char}
    (hl : ∀ c ∈ l, ∃ k, k < 10 ∧ c = digitChar k) :
    stripPy l = l := by
  rw [stripPy, dropWhile_pyIsSpace_of_digits hl, dropWhile_pyIsSpace_of_digits, List.reverse_reverse]
  intro c hc
  exact hl c (List.mem_reverse.mp hc)

theorem pyInt_padNat {w n : Nat} (hw : w ≠ 0) (h : n < 10 ^ w) :
    pyInt (padNat w n) = some (n : Int) := by
  obtain ⟨c, rest, hcr⟩ : ∃ c rest, padNat w n = c :: rest := by
    cases hp : padNat w n with
    | nil =>
      have := padNat_length w n
      rw [hp] at this
      simp at this
      exact absurd this.symm hw
    | cons c rest => exact ⟨c, rest, rfl⟩
  have hstrip : stripPy (padNat w n) = padNat w n :=
    stripPy_of_digits (fun c hc => padNat_mem hc)
  have hcmem : c ∈ padNat w n := by
    rw [hcr]
    exact List.mem_cons_self _ _
  obtain ⟨k, hk, hck⟩ := padNat_mem hcmem
  rw [pyInt, hstrip, hcr]
  dsimp only
  have hminus : ¬ c = '-' := by
    rw [hck]
    exact (digitChar_facts k hk).2.1
  have hplus : ¬ c = '+' := by
    rw [hck]
    exact (digitChar_facts k hk).2.2.1
  rw [if_neg hminus, if_neg hplus, ← hcr, digitsToNat_padNat hw h]
  rfl

theorem daysInMonth_le (y m : Nat) : daysInMonth y m ≤ 31 := by
  rw [daysInMonth]
  split_ifs <;> omega

/-- A valid datetime rendered with `strftime('%Y-%m-%d %H:%M:%S.%f')` and
parsed back with `_strptime` gives back the same datetime. -/
theorem strptime_formatDts {d : Dts} (hv : validDts d = true) :
    strptime (formatDts d) = some d := by
  have hval := of_decide_eq_true hv
  obtain ⟨hy1, hy2, hm1, hm2, hd1, hd2, hh, hmi, hs, hmic⟩ := hval
  have hp4 : (10 : Nat) ^ 4 = 10000 := by norm_num
  have hp2 : (10 : Nat) ^ 2 = 100 := by norm_num
  have hp6 : (10 : Nat) ^ 6 = 1000000 := by norm_num
  have hby : d.year < 10 ^ 4 := by omega
  have hbm : d.month < 10 ^ 2 := by omega
  have hbd : d.day < 10 ^ 2 := by
    have := daysInMonth_le d.year d.month
    omega
  have hbh : d.hour < 10 ^ 2 := by omega
  have hbmi : d.minute < 10 ^ 2 := by omega
  have hbs : d.second < 10 ^ 2 := by omega
  have hbmic : d.microsecond < 10 ^ 6 := by omega
  have hsl0 : pySlice (formatDts d) 0 4 = padNat 4 d.year := by
    rw [formatDts, pySlice, List.drop_zero]
    exact List.take_left' (padNat_length 4 _)
  have hsl1 : pySlice (formatDts d) 5 7 = padNat 2 d.month := by
    have hF : formatDts d = (padNat 4 d.year ++ ['-']) ++
        (padNat 2 d.month ++ '-' :: (padNat 2 d.day ++
        ' ' :: (padNat 2 d.hour ++ ':' :: (padNat 2 d.minute ++
        ':' :: (padNat 2 d.second ++ '.' :: padNat 6 d.microsecond))))) := by
      simp [formatDts]
    rw [pySlice, hF, List.drop_left' (by simp [padNat_length])]
    exact List.take_left' (padNat_length 2 _)
  have hsl2 : pySlice (formatDts d) 8 10 = padNat 2 d.day := by
    have hF : formatDts d = (padNat 4 d.year ++ '-' :: (padNat 2 d.month ++ ['-'])) ++
        (padNat 2 d.day ++ ' ' :: (padNat 2 d.hour ++ ':' :: (padNat 2 d.minute ++
        ':' :: (padNat 2 d.second ++ '.' :: padNat 6 d.microsecond)))) := by
      simp [formatDts]
    rw [pySlice, hF, List.drop_left' (by simp [padNat_length])]
    exact List.take_left' (padNat_length 2 _)
  have hsl3 : pySlice (formatDts d) 11 13 = padNat 2 d.hour := by
    have hF : formatDts d = (padNat 4 d.year ++ '-' :: (padNat 2 d.month ++
        '-' :: (padNat 2 d.day ++ [' ']))) ++
        (padNat 2 d.hour ++ ':' :: (padNat 2 d.minute ++
        ':' :: (padNat 2 d.second ++ '.' :: padNat 6 d.microsecond))) := by
      simp [formatDts]
    rw [pySlice, hF, List.drop_left' (by simp [padNat_length])]
    exact List.take_left' (padNat_length 2 _)
  have hsl4 : pySlice (formatDts d) 14 16 = padNat 2 d.minute := by
    have hF : formatDts d = (padNat 4 d.year ++ '-' :: (padNat 2 d.month ++
        '-' :: (padNat 2 d.day ++ ' ' :: (padNat 2 d.hour ++ [':'])))) ++
        (padNat 2 d.minute ++ ':' :: (padNat 2 d.second ++ '.' :: padNat 6 d.microsecond)) := by
      simp [formatDts]
    rw [pySlice, hF, List.drop_left' (by simp [padNat_length])]
    exact List.take_left' (padNat_length 2 _)
  have hsl5 : pySlice (formatDts d) 17 19 = padNat 2 d.second := by
    have hF : formatDts d = (padNat 4 d.year ++ '-' :: (padNat 2 d.month ++
        '-' :: (padNat 2 d.day ++ ' ' :: (padNat 2 d.hour ++
        ':' :: (padNat 2 d.minute ++ [':']))))) ++
        (padNat 2 d.second ++ '.' :: padNat 6 d.microsecond) := by
      simp [formatDts]
    rw [pySlice, hF, List.drop_left' (by simp [padNat_length])]
    exact List.take_left' (padNat_length 2 _)
  have hsl6 : pySlice (formatDts d) 20 26 = padNat 6 d.microsecond := by
    have hF : formatDts d = (padNat 4 d.year ++ '-' :: (padNat 2 d.month ++
        '-' :: (padNat 2 d.day ++ ' ' :: (padNat 2 d.hour ++
        ':' :: (padNat 2 d.minute ++ ':' :: (padNat 2 d.second ++ ['.'])))))) ++
        padNat 6 d.microsecond := by
      simp [formatDts]
    rw [pySlice, hF, List.drop_left' (by simp [padNat_length])]
    have h6 : (26 : Nat) - 20 = (padNat 6 d.microsecond).length := by
      simp [padNat_length]
    rw [h6, List.take_length]
  rw [strptime, hsl0, hsl1, hsl2, hsl3, hsl4, hsl5, hsl6,
    pyInt_padNat (by omega) hby, pyInt_padNat (by omega) hbm,
    pyInt_padNat (by omega) hbd, pyInt_padNat (by omega) hbh,
    pyInt_padNat (by omega) hbmi, pyInt_padNat (by omega) hbs,
    pyInt_padNat (by omega) hbmic]
  show mkDatetime (d.year : Int) (d.month : Int) (d.day : Int) (d.hour : Int)
    (d.minute : Int) (d.second : Int) (d.microsecond : Int) = some d
  rw [mkDatetime, if_pos]
  · simp only [Int.toNat_natCast]
    rw [if_pos]
    exact hv
  · refine ⟨?_, ?_, ?_, ?_, ?_, ?_, ?_⟩ <;> exact Int.natCast_nonneg _

/-! ## SSID escaping

`_load_requests` runs `target_ssid = repr(target_ssid)[2:-1]` on every
truthy SSID.  Under Python 2 `repr` of a unicode string produces
`u<quote><escaped body><quote>`, so `[2:-1]` is exactly the escaped body:
backslash, the chosen quote character, newline, carriage return and tab are
backslash-escaped, other printable ASCII passes through, and everything
else becomes a `\xhh`, `\uhhhh` or `\Uhhhhhhhh` escape.  The quote is a
single quote unless the string contains a single quote but no double
quote. -/

def hexDigitChar (n : Nat) : Char :=
  if n = 0 then '0' else if n = 1 then '1' else if n = 2 then '2' else if n = 3 then '3'
  else if n = 4 then '4' else if n = 5 then '5' else if n = 6 then '6' else if n = 7 then '7'
  else if n = 8 then '8' else if n = 9 then '9' else if n = 10 then 'a' else if n = 11 then 'b'
  else if n = 12 then 'c' else if n = 13 then 'd' else if n = 14 then 'e' else 'f'

def hexPad : Nat → Nat → List Char
  | 0, _ => []
  | w + 1, n => hexPad w (n / 16) ++ [hexDigitChar (n % 16)]

/-- The quote character Python 2 `repr` picks for a unicode string. -/
def reprQuote (s : List Char) : Char :=
  if '\x27' ∈ s ∧ '"' ∉ s then '"' else '\x27'

/-- Escape of one character in a Python 2 unicode `repr` body with quote
character `q`. -/
def reprEscapeChar (q c : Char) : List Char :=
  if c = '\\' then ['\\', '\\']
  else if c = q then ['\\', q]
  else if c = '\n' then ['\\', 'n']
  else if c = '\r' then ['\\', 'r']
  else if c = '\t' then ['\\', 't']
  else if 0x20 ≤ c.toNat ∧ c.toNat < 0x7f then [c]
  else if c.toNat < 0x100 then '\\' :: 'x' :: hexPad 2 c.toNat
  else if c.toNat < 0x10000 then '\\' :: 'u' :: hexPad 4 c.toNat
  else '\\' :: 'U' :: hexPad 8 c.toNat

/-- `repr(s)[2:-1]` for a unicode string `s`: the escaped body of the
`repr`. -/
def reprEscape (s : String) : String :=
  String.mk ((s.toList.map (reprEscapeChar (reprQuote s.toList))).flatten)

theorem reprEscapeChar_ne_nil (q c : Char) : reprEscapeChar q c ≠ [] := by
  rw [reprEscapeChar]
  split_ifs <;> simp

theorem string_toList_eq_nil {s : String} (h : s.toList = []) : s = "" := by
  cases s with
  | mk data =>
    simp only [String.toList] at h
    subst h
    rfl

theorem reprEscape_ne_empty {s : String} (hs : s ≠ "") : reprEscape s ≠ "" := by
  intro h
  apply hs
  have hnil : ((s.toList.map (reprEscapeChar (reprQuote s.toList))).flatten) = [] := by
    have h2 := congrArg String.toList h
    simpa [reprEscape] using h2
  cases hl : s.toList with
  | nil => exact string_toList_eq_nil hl
  | cons c rest =>
    rw [hl, List.map_cons, List.flatten_cons] at hnil
    exact absurd (List.append_eq_nil.mp hnil).1 (reprEscapeChar_ne_nil _ c)

/-- Characters on which repr-escaping is the identity: printable ASCII
other than backslash and single quote. -/
def reprPlain (c : Char) : Prop :=
  0x20 ≤ c.toNat ∧ c.toNat < 0x7f ∧ c ≠ '\\' ∧ c ≠ '\x27'

theorem reprEscapeChar_plain {c : Char} (hc : reprPlain c) :
    reprEscapeChar '\x27' c = [c] := by
  obtain ⟨h1, h2, h3, h4⟩ := hc
  rw [reprEscapeChar, if_neg h3, if_neg h4]
  have hn : c ≠ '\n' := by
    intro h
    rw [h] at h1
    exact absurd h1 (by decide)
  have hr : c ≠ '\r' := by
    intro h
    rw [h] at h1
    exact absurd h1 (by decide)
  have ht : c ≠ '\t' := by
    intro h
    rw [h] at h1
    exact absurd h1 (by decide)
  rw [if_neg hn, if_neg hr, if_neg ht, if_pos ⟨h1, h2⟩]

/-- On a string of plain printable ASCII (no backslash, no single quote)
the decoder's `repr(...)[2:-1]` transformation is the identity. -/
theorem reprEscape_plain {s : String} (hs : ∀ c ∈ s.toList, reprPlain c) :
    reprEscape s = s := by
  have hq : reprQuote s.toList = '\x27' := by
    rw [reprQuote, if_neg]
    rintro ⟨hmem, -⟩
    exact (hs _ hmem).2.2.2 rfl
  rw [reprEscape, hq]
  have : ∀ l : List Char, (∀ c ∈ l, reprPlain c) →
      (l.map (reprEscapeChar '\x27')).flatten = l := by
    intro l
    induction l with
    | nil => intro _; rfl
    | cons c rest ih =>
      intro hl
      rw [List.map_cons, List.flatten_cons,
        reprEscapeChar_plain (hl c (List.mem_cons_self _ _)),
        ih (fun x hx => hl x (List.mem_cons_of_mem _ hx))]
      rfl
  rw [this s.toList hs]
  rfl

/-! ## Data model

`ProbeRequest` is the event record.  After decoding, `capture_dts` may be
`None` (unparseable timestamp), so it is an `Option Dts` here; a request
built at capture time carries a real datetime (`some`).  Python string
truthiness is explicit: `None` and the empty string are falsy. -/

structure ProbeRequest where
  source_mac : String
  capture_dts : Option Dts
  target_ssid : Option String
  signal_strength : Option Int
deriving DecidableEq

/-- Python truthiness of an optional string (`if ssid:`). -/
def optStrTruthy : Option String → Bool
  | none => false
  | some s => decide (s ≠ "")

/-- The ordered dict produced by `ProbeRequest.__jdict__` and serialised by
`json_compact`.  JSON serialisation of strings, `null` and integers is
lossless, so a line of the log is represented by its field record; only the
`capture_dts` field is genuinely textual (`strftime` output). -/
structure JDict where
  source_mac : String
  capture_dts : List Char
  target_ssid : Option String
  signal_strength : Option Int
deriving DecidableEq

/-- `ProbeRequest.__jdict__` followed by `json_compact`: formats
`capture_dts` with `strftime('%Y-%m-%d %H:%M:%S.%f')`.  Python 2
`strftime` raises a `TypeError` on `None` (`none` here) and a
`ValueError` on any year before 1900 (the `strftime` methods require
`year >= 1900`), in which case nothing is produced and nothing is
written. -/
def ProbeRequest.jdict (r : ProbeRequest) : Option JDict :=
  match r.capture_dts with
  | none => none
  | some d =>
      if 1900 ≤ d.year then
        some { source_mac := r.source_mac
               capture_dts := formatDts d
               target_ssid := r.target_ssid
               signal_strength := r.signal_strength }
      else none

/-- The per-record body of `_load_requests`: `_strptime` on the timestamp
string with any failure caught and turned into `None`, and
`repr(target_ssid)[2:-1]` applied to a truthy SSID (`None` and `''` are
left alone). -/
def decodeRecord (j : JDict) : ProbeRequest :=
  { source_mac := j.source_mac
    capture_dts := strptime j.capture_dts
    target_ssid :=
      match j.target_ssid with
      | none => none
      | some s => if s ≠ "" then some (reprEscape s) else some s
    signal_strength := j.signal_strength }

/-- A `Device` aggregate.  `known_ssids` starts empty in every aggregation
query (the constructor default), vendor fields are only touched by the
enrichment component. -/
structure Device where
  device_mac : String
  known_ssids : List String
  vendor_company : Option String
  vendor_country : Option String
  last_seen_dts : Option Dts
  alias_ : Option String
deriving DecidableEq

/-- `Device(device_mac, last_seen_dts=capture_dts)` as built in
`get_devices`. -/
def Device.init (mac : String) (last_seen : Option Dts) : Device :=
  { device_mac := mac, known_ssids := [], vendor_company := none
    vendor_country := none, last_seen_dts := last_seen, alias_ := none }

/-- `Device.set_alias`: only sets the alias when the current alias is
falsy. -/
def Device.set_alias (d : Device) (a : String) : Device :=
  if optStrTruthy d.alias_ then d else { d with alias_ := some a }

/-- `Device.add_ssid`: append a truthy SSID not already known. -/
def Device.add_ssid (d : Device) (ssid : Option String) : Device :=
  match ssid with
  | none => d
  | some s =>
      if s ≠ "" ∧ s ∉ d.known_ssids then
        { d with known_ssids := d.known_ssids ++ [s] }
      else d

structure Station where
  ssid : String
  associated_devices : List String
deriving DecidableEq

/-- `Station.add_device`: append a truthy MAC not already associated. -/
def Station.add_device (st : Station) (mac : String) : Station :=
  if mac ≠ "" ∧ mac ∉ st.associated_devices then
    { st with associated_devices := st.associated_devices ++ [mac] }
  else st

/-! ## Chunked log reading

A raw line of the log file is one of: a blank separator line (length at
most one character, dropped by the `len(line) > 1` filter), a line that
fails to decode, or a line that decodes to one record.  The two-stage
decode of `_read_requests_chunk` (batch decode of the whole chunk, falling
back to line-by-line decode that skips bad lines) nets out to: the records
of the decodable lines, in order. -/

inductive LineKind
  | blank
  | corrupt
  | record (p : ProbeRequest)
deriving DecidableEq

/-- The `len(line) > 1` filter keeps non-blank lines. -/
def LineKind.notBlank : LineKind → Bool
  | .blank => false
  | _ => true

/-- Net decode result of one surviving line. -/
def LineKind.decodeOf : LineKind → Option ProbeRequest
  | .record p => some p
  | _ => none

/-- `lines = [line for line in chunk if len(line) > 1]` followed by the
batch/line-by-line decode: the records of the decodable lines of the
chunk, in order. -/
def decodeChunk (chunk : List LineKind) : List ProbeRequest :=
  (chunk.filter LineKind.notBlank).filterMap LineKind.decodeOf

/-- The generator loop of `_read_requests_chunk` over the already-sliced
chunks.  For each chunk: decode; evaluate `all[0]` — an `IndexError`
(modelled `.error ()`) if the chunk decoded to nothing; `break` if the
first record's timestamp exceeds `load_dts`; otherwise yield the records
strictly before `load_dts` and continue. -/
def readRequestsChunk (loadDts : Dts) : List (List LineKind) → Except Unit (List (List ProbeRequest))
  | [] => .ok []
  | c :: rest =>
    match decodeChunk c with
    | [] => .error ()
    | first :: others =>
      if pyDtsGt first.capture_dts (some loadDts) then .ok []
      else
        match readRequestsChunk loadDts rest with
        | .error e => .error e
        | .ok more =>
            .ok (((first :: others).filter
              (fun r => pyDtsLt r.capture_dts (some loadDts))) :: more)

/-- `Tracker._read_requests_chunk(load_dts)` with the default
`chunk_size=10000`: slice the raw lines into chunks of 10000 and run the
generator loop.  `load_dts` is the resolved cutoff (`datetime.now()` when
the caller passes nothing). -/
def readRequests (lines : List LineKind) (loadDts : Dts) :
    Except Unit (List (List ProbeRequest)) :=
  readRequestsChunk loadDts (chunksOf 10000 lines)

/-! ## Aggregation queries -/

/-- Loop body of `Tracker.get_devices` for one request. -/
def getDevicesStep (aliases : List (String × String))
    (devices : List (String × Device)) (r : ProbeRequest) : List (String × Device) :=
  let id := r.source_mac
  let devices :=
    if (lookupA devices id).isNone then
      devices ++ [(id,
        match lookupA aliases id with
        | some a => (Device.init id r.capture_dts).set_alias a
        | none => Device.init id r.capture_dts)]
    else devices
  let devices :=
    if optStrTruthy r.target_ssid then
      updateAssoc devices id (fun d => d.add_ssid r.target_ssid)
    else devices
  updateAssoc devices id (fun d =>
    if pyDtsLt d.last_seen_dts r.capture_dts then
      { d with last_seen_dts := r.capture_dts }
    else d)

/-- `Tracker.get_devices(load_dts, aliases)`: fold every record of every
yielded chunk into the device map.  A crash of the generator propagates. -/
def get_devices (lines : List LineKind) (loadDts : Dts)
    (aliases : List (String × String)) : Except Unit (List (String × Device)) :=
  (readRequests lines loadDts).map (fun chunks =>
    chunks.foldl (fun devices chunk => chunk.foldl (getDevicesStep aliases) devices) [])

/-- Per-chunk body of `Tracker.get_device`: filter the chunk to the
requested MAC, add the truthy SSIDs, then set `last_seen_dts` from the last
matching record (`IndexError` on an empty match list is swallowed). -/
def getDeviceChunkFold (mac : String) (device : Device)
    (chunk : List ProbeRequest) : Device :=
  let matching := chunk.filter (fun r => r.source_mac = mac)
  let device := matching.foldl (fun d r =>
    if optStrTruthy r.target_ssid then d.add_ssid r.target_ssid else d) device
  match matching.getLast? with
  | some r => { device with last_seen_dts := r.capture_dts }
  | none => device

/-- `Tracker.get_device(device_mac, load_dts, alias)`. -/
def get_device (lines : List LineKind) (mac : String) (loadDts : Dts)
    (alias_ : Option String) : Except Unit Device :=
  (readRequests lines loadDts).map (fun chunks =>
    chunks.foldl (getDeviceChunkFold mac)
      { device_mac := mac, known_ssids := [], vendor_company := none
        vendor_country := none, last_seen_dts := none, alias_ := alias_ })

/-- Loop body of `Tracker.get_stations` for one request. -/
def getStationsStep (stations : List (String × Station)) (r : ProbeRequest) :
    List (String × Station) :=
  match r.target_ssid with
  | none => stations
  | some s =>
      if s ≠ "" then
        let stations :=
          if (lookupA stations s).isNone then stations ++ [(s, ⟨s, []⟩)]
          else stations
        updateAssoc stations s (fun st => st.add_device r.source_mac)
      else stations

/-- `Tracker.get_stations(load_dts)`. -/
def get_stations (lines : List LineKind) (loadDts : Dts) :
    Except Unit (List (String × Station)) :=
  (readRequests lines loadDts).map (fun chunks =>
    chunks.foldl (fun stations chunk => chunk.foldl getStationsStep stations) [])

/-- Per-chunk body of `Tracker.get_station`. -/
def getStationChunkFold (ssid : String) (st : Station)
    (chunk : List ProbeRequest) : Station :=
  (chunk.filter (fun r => r.target_ssid = some ssid)).foldl
    (fun s r => s.add_device r.source_mac) st

/-- `Tracker.get_station(ssid, load_dts)`. -/
def get_station (lines : List LineKind) (ssid : String) (loadDts : Dts) :
    Except Unit Station :=
  (readRequests lines loadDts).map (fun chunks =>
    chunks.foldl (getStationChunkFold ssid) ⟨ssid, []⟩)

/-! ## Alias store

The alias file is a semicolon-delimited CSV of `(device_mac, alias)` rows;
it is modelled as its list of rows.  `get_aliases` loads the rows into a
dict (later rows overwrite earlier ones); `set_device_alias` re-reads the
file, raises `ValueError` when the MAC already has an alias and `force` is
not set — before opening the file for writing, so the file is untouched —
and otherwise rewrites the whole file from the updated dict. -/

/-- Python dict assignment `d[k] = v` on an insertion-ordered dict. -/
def dictInsert (d : List (String × String)) (k v : String) : List (String × String) :=
  if (lookupA d k).isSome then updateAssoc d k (fun _ => v) else d ++ [(k, v)]

/-- `Tracker.get_aliases`. -/
def get_aliases (rows : List (String × String)) : List (String × String) :=
  rows.foldl (fun d p => dictInsert d p.1 p.2) []

/-- `Tracker.set_device_alias(device_mac, alias, force)`; the resulting
file rows on success, `ValueError` (with the file unwritten) on a
conflict. -/
def set_device_alias (rows : List (String × String)) (mac alias_ : String)
    (force : Bool) : Except Unit (List (String × String)) :=
  let aliases := get_aliases rows
  if force = false ∧ (lookupA aliases mac).isSome then .error ()
  else .ok (dictInsert aliases mac alias_)

/-! ## The log file at character level

`Tracker._write_request` appends `'\n' + json_compact(request)` to the log
file.  Reading iterates the file line by line, each line keeping its
trailing newline, with no trailing empty line. -/

/-- One `file.write('\n' + dump)` append. -/
def pyWriteRequest (file : List Char) (dump : List Char) : List Char :=
  file ++ '\n' :: dump

/-- The log file contents after appending each dump in turn to an empty
file. -/
def writeRequests (dumps : List (List Char)) : List Char :=
  dumps.foldl pyWriteRequest []

/-- Python file iteration: split after every newline, keeping the newline
on each line; a final fragment without a newline is its own line. -/
def pyLinesAux : List Char → List Char → List (List Char)
  | [], acc => if acc = [] then [] else [acc.reverse]
  | c :: cs, acc =>
      if c = '\n' then (acc.reverse ++ ['\n']) :: pyLinesAux cs []
      else pyLinesAux cs (c :: acc)

def pyLines (s : List Char) : List (List Char) := pyLinesAux s []

/-- The `len(line) > 1` filter of `_read_requests_chunk`, at character
level. -/
def filterBlankLines (chunk : List (List Char)) : List (List Char) :=
  chunk.filter (fun l => decide (1 < l.length))

/-- The record lines an append-only log of the given dumps decomposes
into: every line but the last carries the following separator newline. -/
def recordLines : List (List Char) → List (List Char)
  | [] => []
  | [d] => [d]
  | d :: rest => (d ++ ['\n']) :: recordLines rest

/-! ## Reader reduction lemmas -/

theorem decodeChunk_eq_filterMap (c : List LineKind) :
    decodeChunk c = c.filterMap LineKind.decodeOf := by
  induction c with
  | nil => rfl
  | cons lk rest ih =>
    cases lk with
    | blank =>
      show decodeChunk rest = List.filterMap LineKind.decodeOf rest
      exact ih
    | corrupt =>
      show decodeChunk rest = List.filterMap LineKind.decodeOf rest
      exact ih
    | record p =>
      show p :: decodeChunk rest = p :: List.filterMap LineKind.decodeOf rest
      rw [ih]

theorem decodeChunk_append (a b : List LineKind) :
    decodeChunk (a ++ b) = decodeChunk a ++ decodeChunk b := by
  simp [decodeChunk_eq_filterMap, List.filterMap_append]

theorem flatten_map_decodeChunk (ls : List (List LineKind)) :
    (ls.map decodeChunk).flatten = decodeChunk ls.flatten := by
  induction ls with
  | nil => rfl
  | cons c rest ih =>
    rw [List.map_cons, List.flatten_cons, List.flatten_cons, decodeChunk_append, ih]

theorem flatten_map_filter {β : Type} (p : β → Bool) (ls : List (List β)) :
    (ls.map (fun l => l.filter p)).flatten = ls.flatten.filter p := by
  induction ls with
  | nil => rfl
  | cons c rest ih =>
    rw [List.map_cons, List.flatten_cons, List.flatten_cons, List.filter_append, ih]

/-- When every chunk decodes to at least one record (no `IndexError` at
`all[0]`) and no decoded record's timestamp exceeds the cutoff (no early
`break`), the generator yields every chunk, filtered to the records
strictly before the cutoff. -/
theorem readRequestsChunk_ok (loadDts : Dts) (chunks : List (List LineKind))
    (hne : ∀ c ∈ chunks, decodeChunk c ≠ [])
    (hgt : ∀ c ∈ chunks, ∀ p ∈ decodeChunk c,
      pyDtsGt p.capture_dts (some loadDts) = false) :
    readRequestsChunk loadDts chunks =
      .ok (chunks.map (fun c => (decodeChunk c).filter
        (fun r => pyDtsLt r.capture_dts (some loadDts)))) := by
  induction chunks with
  | nil => rfl
  | cons c rest ih =>
    rw [readRequestsChunk]
    cases hdc : decodeChunk c with
    | nil => exact absurd hdc (hne c (List.mem_cons_self _ _))
    | cons first others =>
      have hfirst : pyDtsGt first.capture_dts (some loadDts) = false :=
        hgt c (List.mem_cons_self _ _) first (by rw [hdc]; exact List.mem_cons_self _ _)
      dsimp only
      rw [if_neg (by rw [hfirst]; exact Bool.false_ne_true)]
      rw [ih (fun x hx => hne x (List.mem_cons_of_mem _ hx))
        (fun x hx => hgt x (List.mem_cons_of_mem _ hx))]
      dsimp only
      rw [List.map_cons, ← hdc]

theorem readRequests_ok (lines : List LineKind) (loadDts : Dts)
    (hne : ∀ c ∈ chunksOf 10000 lines, decodeChunk c ≠ [])
    (hgt : ∀ p ∈ decodeChunk lines, pyDtsGt p.capture_dts (some loadDts) = false) :
    readRequests lines loadDts =
      .ok ((chunksOf 10000 lines).map (fun c => (decodeChunk c).filter
        (fun r => pyDtsLt r.capture_dts (some loadDts)))) := by
  rw [readRequests]
  apply readRequestsChunk_ok loadDts _ hne
  intro c hc p hp
  apply hgt
  rw [decodeChunk_eq_filterMap] at hp ⊢
  obtain ⟨lk, hlk, hdec⟩ := List.mem_filterMap.mp hp
  exact List.mem_filterMap.mpr ⟨lk, mem_of_mem_chunksOf _ _ c hc lk hlk, hdec⟩

theorem flatten_yield (lines : List LineKind) (loadDts : Dts) :
    ((chunksOf 10000 lines).map (fun c => (decodeChunk c).filter
      (fun r => pyDtsLt r.capture_dts (some loadDts)))).flatten =
      (decodeChunk lines).filter (fun r => pyDtsLt r.capture_dts (some loadDts)) := by
  have h1 : ((chunksOf 10000 lines).map (fun c => (decodeChunk c).filter
      (fun r => pyDtsLt r.capture_dts (some loadDts)))) =
      (((chunksOf 10000 lines).map decodeChunk).map (fun l => l.filter
      (fun r => pyDtsLt r.capture_dts (some loadDts)))) := by
    rw [List.map_map]
    rfl
  rw [h1, flatten_map_filter, flatten_map_decodeChunk,
    join_chunksOf 10000 lines (by omega)]

/-- Under the no-crash and no-abort conditions `get_devices` is the fold of
`getDevicesStep` over the decoded records strictly before the cutoff, in
file order. -/
theorem get_devices_eq (lines : List LineKind) (loadDts : Dts)
    (aliases : List (String × String))
    (hne : ∀ c ∈ chunksOf 10000 lines, decodeChunk c ≠ [])
    (hgt : ∀ p ∈ decodeChunk lines, pyDtsGt p.capture_dts (some loadDts) = false) :
    get_devices lines loadDts aliases =
      .ok (((decodeChunk lines).filter
        (fun r => pyDtsLt r.capture_dts (some loadDts))).foldl
        (getDevicesStep aliases) []) := by
  rw [get_devices, readRequests_ok lines loadDts hne hgt]
  dsimp only [Except.map]
  rw [foldl_chunks_eq_foldl_flatten, flatten_yield]

/-- SSID contribution of one decoded record to the aggregations: truthy
(non-`None`, nonempty) SSIDs only. -/
def truthySsidOf (r : ProbeRequest) : Option String :=
  match r.target_ssid with
  | none => none
  | some s => if s = "" then none else some s

/-- The records of `rs` whose `source_mac` is `mac`. -/
def matchingOf (mac : String) (rs : List ProbeRequest) : List ProbeRequest :=
  rs.filter (fun r => r.source_mac = mac)

/-- The Device that folding `rs` through `get_devices` (with an empty alias
overlay) associates with `mac`. -/
def specDeviceOf (mac : String) (rs : List ProbeRequest) : Device :=
  { device_mac := mac
    known_ssids := firstDedup ((matchingOf mac rs).filterMap truthySsidOf)
    vendor_company := none
    vendor_country := none
    last_seen_dts := pyMaxDts ((matchingOf mac rs).map (fun r => r.capture_dts))
    alias_ := none }

/-- The fold of `get_devices` over a record list, empty alias overlay. -/
def getDevicesFold (rs : List ProbeRequest) : List (String × Device) :=
  rs.foldl (getDevicesStep []) []

/-- Net effect of one `get_devices` loop iteration on the device bound to
the record's own MAC. -/
def devUpd (d : Device) (r : ProbeRequest) : Device :=
  let d1 := if optStrTruthy r.target_ssid then d.add_ssid r.target_ssid else d
  if pyDtsLt d1.last_seen_dts r.capture_dts then
    { d1 with last_seen_dts := r.capture_dts }
  else d1

theorem add_ssid_last (d : Device) (ssid : Option String) :
    (d.add_ssid ssid).last_seen_dts = d.last_seen_dts := by
  cases ssid with
  | none => rfl
  | some s =>
    show (if s ≠ "" ∧ s ∉ d.known_ssids then
      { d with known_ssids := d.known_ssids ++ [s] } else d).last_seen_dts = d.last_seen_dts
    split_ifs <;> rfl

theorem matchingOf_append_self (mac : String) (rs : List ProbeRequest)
    (r : ProbeRequest) (hmac : r.source_mac = mac) :
    matchingOf mac (rs ++ [r]) = matchingOf mac rs ++ [r] := by
  rw [matchingOf, List.filter_append, ← matchingOf]
  congr 1
  simp [hmac]

theorem matchingOf_append_other (mac : String) (rs : List ProbeRequest)
    (r : ProbeRequest) (hmac : r.source_mac ≠ mac) :
    matchingOf mac (rs ++ [r]) = matchingOf mac rs := by
  rw [matchingOf, List.filter_append, ← matchingOf]
  simp [hmac]

theorem matchingOf_nil_of_not_mem {mac : String} {rs : List ProbeRequest}
    (h : mac ∉ rs.map (·.source_mac)) : matchingOf mac rs = [] := by
  rw [matchingOf, List.filter_eq_nil_iff]
  intro r hr
  simp only [decide_eq_true_eq]
  intro hmac
  exact h (List.mem_map.mpr ⟨r, hr, hmac⟩)

/-- The list of SSIDs one record contributes (empty or a singleton). -/
def tlist : Option String -> List String
  | none => []
  | some s => if s = "" then [] else [s]

/-- Pure content of `add_ssid` on the `known_ssids` field. -/
def ssidStep (known : List String) (ssid : Option String) : List String :=
  match ssid with
  | none => known
  | some s => if s ≠ "" ∧ s ∉ known then known ++ [s] else known

/-- Pure content of the `last_seen_dts` update of `get_devices`. -/
def lastStep (last dts : Option Dts) : Option Dts :=
  if pyDtsLt last dts then dts else last

theorem devUpd_eq (d : Device) (r : ProbeRequest) :
    devUpd d r =
      { d with known_ssids := ssidStep d.known_ssids r.target_ssid
               last_seen_dts := lastStep d.last_seen_dts r.capture_dts } := by
  have hks : (if optStrTruthy r.target_ssid = true then d.add_ssid r.target_ssid else d) =
      { d with known_ssids := ssidStep d.known_ssids r.target_ssid } := by
    cases hts : r.target_ssid with
    | none =>
      rw [if_neg (by rw [show optStrTruthy none = false from rfl]; exact Bool.false_ne_true)]
      rfl
    | some s =>
      by_cases hse : s = ""
      · subst hse
        rw [if_neg (by rw [show optStrTruthy (some "") = false from by
          rw [optStrTruthy]; rfl]; exact Bool.false_ne_true)]
        show d = { d with known_ssids := ssidStep d.known_ssids (some "") }
        rw [show ssidStep d.known_ssids (some "") = d.known_ssids from by
          show (if "" ≠ "" ∧ "" ∉ d.known_ssids then d.known_ssids ++ [""] else d.known_ssids)
            = d.known_ssids
          rw [if_neg (by rintro ⟨h, -⟩; exact h rfl)]]
      · rw [if_pos (by rw [show optStrTruthy (some s) = decide (s ≠ "") from rfl]; exact decide_eq_true hse)]
        show (if s ≠ "" ∧ s ∉ d.known_ssids then
            { d with known_ssids := d.known_ssids ++ [s] } else d) =
          { d with known_ssids := ssidStep d.known_ssids (some s) }
        rw [show ssidStep d.known_ssids (some s) =
            (if s ≠ "" ∧ s ∉ d.known_ssids then d.known_ssids ++ [s] else d.known_ssids) from rfl]
        by_cases hmem : s ∈ d.known_ssids
        · rw [if_neg (by rintro ⟨-, h⟩; exact h hmem),
            if_neg (by rintro ⟨-, h⟩; exact h hmem)]
        · rw [if_pos ⟨hse, hmem⟩, if_pos ⟨hse, hmem⟩]
  rw [devUpd]
  rw [hks]
  rw [show ({ d with known_ssids := ssidStep d.known_ssids r.target_ssid } : Device).last_seen_dts
      = d.last_seen_dts from rfl]
  rw [lastStep]
  by_cases hpy : pyDtsLt d.last_seen_dts r.capture_dts = true
  · rw [if_pos hpy, if_pos hpy]
  · rw [if_neg hpy, if_neg hpy]

theorem filterMap_truthy_singleton (r : ProbeRequest) :
    List.filterMap truthySsidOf [r] = tlist r.target_ssid := by
  rw [List.filterMap_cons]
  cases hts : r.target_ssid with
  | none =>
    rw [show truthySsidOf r = none from by rw [truthySsidOf.eq_def, hts]]
    rfl
  | some s =>
    rw [show truthySsidOf r = if s = "" then none else some s from by
      rw [truthySsidOf.eq_def, hts]]
    by_cases hse : s = ""
    · rw [if_pos hse]
      show ([] : List String) = tlist (some s)
      rw [show tlist (some s) = if s = "" then [] else [s] from rfl, if_pos hse]
    · rw [if_neg hse]
      show [s] = tlist (some s)
      rw [show tlist (some s) = if s = "" then [] else [s] from rfl, if_neg hse]

theorem ssidStep_firstDedup (L : List String) (t : Option String) :
    ssidStep (firstDedup L) t = firstDedup (L ++ tlist t) := by
  cases t with
  | none =>
    show firstDedup L = firstDedup (L ++ [])
    rw [List.append_nil]
  | some s =>
    by_cases hse : s = ""
    · subst hse
      rw [show tlist (some "") = [] from rfl, List.append_nil]
      show (if "" ≠ "" ∧ "" ∉ firstDedup L then firstDedup L ++ [""] else firstDedup L)
        = firstDedup L
      rw [if_neg (by rintro ⟨h, -⟩; exact h rfl)]
    · rw [show tlist (some s) = [s] from by
        rw [show tlist (some s) = if s = "" then [] else [s] from rfl, if_neg hse]]
      show (if s ≠ "" ∧ s ∉ firstDedup L then firstDedup L ++ [s] else firstDedup L)
        = firstDedup (L ++ [s])
      by_cases hmem : s ∈ firstDedup L
      · rw [if_neg (by rintro ⟨-, h⟩; exact h hmem),
          firstDedup_append_of_mem (mem_firstDedup.mp hmem)]
      · rw [if_pos ⟨hse, hmem⟩,
          firstDedup_append_of_not_mem (fun h => hmem (mem_firstDedup.mpr h))]

theorem lastStep_pyMaxDts (M : List (Option Dts)) (x : Option Dts) :
    lastStep (pyMaxDts M) x = pyMaxDts (M ++ [x]) := by
  rw [lastStep, pyMaxDts_append]

/-- One iteration applied to the device already bound to the MAC advances
the specification device by one record. -/
theorem devUpd_existing (mac : String) (rs : List ProbeRequest) (r : ProbeRequest)
    (hmac : r.source_mac = mac) :
    devUpd (specDeviceOf mac rs) r = specDeviceOf mac (rs ++ [r]) := by
  rw [devUpd_eq, specDeviceOf, specDeviceOf, matchingOf_append_self mac rs r hmac,
    List.filterMap_append, List.map_append, filterMap_truthy_singleton]
  dsimp only
  rw [ssidStep_firstDedup, lastStep_pyMaxDts]
  rfl

/-- One iteration starting from the freshly created device (first sighting
of the MAC) produces the specification device for the one-record
history. -/
theorem devUpd_fresh (mac : String) (rs : List ProbeRequest) (r : ProbeRequest)
    (hmac : r.source_mac = mac) (hnil : matchingOf mac rs = []) :
    devUpd (Device.init mac r.capture_dts) r = specDeviceOf mac (rs ++ [r]) := by
  rw [devUpd_eq, Device.init, specDeviceOf, matchingOf_append_self mac rs r hmac, hnil,
    List.nil_append, filterMap_truthy_singleton]
  dsimp only
  have hssid : ssidStep [] r.target_ssid = firstDedup (tlist r.target_ssid) := by
    have h0 : ssidStep ([] : List String) r.target_ssid = tlist r.target_ssid := by
      cases r.target_ssid with
      | none => rfl
      | some s =>
        show (if s ≠ "" ∧ s ∉ ([] : List String) then [] ++ [s] else [])
          = if s = "" then [] else [s]
        by_cases hse : s = ""
        · rw [if_neg (by rintro ⟨h, -⟩; exact h hse), if_pos hse]
        · rw [if_pos ⟨hse, by simp⟩, if_neg hse, List.nil_append]
    rw [h0]
    have hsing : firstDedup (tlist r.target_ssid) = tlist r.target_ssid := by
      cases hts : r.target_ssid with
      | none => rfl
      | some s =>
        by_cases hse : s = ""
        · rw [show tlist (some s) = if s = "" then [] else [s] from rfl, if_pos hse]
          rfl
        · rw [show tlist (some s) = if s = "" then [] else [s] from rfl, if_neg hse]
          rfl
    rw [hsing]
  rw [hssid]
  rw [show lastStep r.capture_dts r.capture_dts = r.capture_dts from by
    rw [lastStep, pyDtsLt_irrefl]; rfl]
  rw [show List.map (fun r => r.capture_dts) [r] = [r.capture_dts] from rfl,
    pyMaxDts_singleton]

/-- A `get_devices` iteration does not touch bindings for other MACs. -/
theorem getDevicesStep_lookup_other (m : List (String × Device)) (r : ProbeRequest)
    {k : String} (hk : k ≠ r.source_mac) :
    lookupA (getDevicesStep [] m r) k = lookupA m k := by
  have hne : ¬ r.source_mac = k := fun h => hk h.symm
  simp only [getDevicesStep, lookupA]
  rw [lookupA_updateAssoc, if_neg hne]
  by_cases hss : optStrTruthy r.target_ssid = true
  · rw [if_pos hss, lookupA_updateAssoc, if_neg hne]
    by_cases hnew : (lookupA m r.source_mac).isNone = true
    · rw [if_pos hnew, lookupA_append_singleton]
      cases h : lookupA m k
      · dsimp only
        rw [if_neg hne]
      · rfl
    · rw [if_neg hnew]
  · rw [if_neg hss]
    by_cases hnew : (lookupA m r.source_mac).isNone = true
    · rw [if_pos hnew, lookupA_append_singleton]
      cases h : lookupA m k
      · dsimp only
        rw [if_neg hne]
      · rfl
    · rw [if_neg hnew]

/-- A `get_devices` iteration rebinds the record's own MAC to the updated
device; a fresh MAC starts from `Device.init`. -/
theorem getDevicesStep_lookup_self (m : List (String × Device)) (r : ProbeRequest) :
    lookupA (getDevicesStep [] m r) r.source_mac =
      some (devUpd ((lookupA m r.source_mac).getD
        (Device.init r.source_mac r.capture_dts)) r) := by
  simp only [getDevicesStep, lookupA, devUpd]
  cases hm : lookupA m r.source_mac with
  | none =>
    rw [if_pos (show (none : Option Device).isNone = true from rfl)]
    by_cases hss : optStrTruthy r.target_ssid = true
    · rw [if_pos hss, if_pos hss, lookupA_updateAssoc, if_pos rfl, lookupA_updateAssoc,
        if_pos rfl, lookupA_append_singleton, hm]
      dsimp only
      rw [if_pos rfl]
      rfl
    · rw [if_neg hss, if_neg hss, lookupA_updateAssoc, if_pos rfl,
        lookupA_append_singleton, hm]
      dsimp only
      rw [if_pos rfl]
      rfl
  | some dv =>
    rw [if_neg (show ¬ ((some dv).isNone = true) from by intro h; exact Bool.false_ne_true h)]
    by_cases hss : optStrTruthy r.target_ssid = true
    · rw [if_pos hss, if_pos hss, lookupA_updateAssoc, if_pos rfl, lookupA_updateAssoc,
        if_pos rfl, hm]
      rfl
    · rw [if_neg hss, if_neg hss, lookupA_updateAssoc, if_pos rfl, hm]
      rfl

/-- Folding records through the `get_devices` loop (empty alias overlay)
binds exactly the seen MACs, each to its specification device. -/
theorem getDevicesFold_lookup (rs : List ProbeRequest) (mac : String) :
    lookupA (getDevicesFold rs) mac =
      if mac ∈ rs.map (·.source_mac) then some (specDeviceOf mac rs) else none := by
  induction rs using List.reverseRecOn with
  | nil => simp [getDevicesFold, lookupA]
  | append_singleton rs r ih =>
    have hfold : getDevicesFold (rs ++ [r]) = getDevicesStep [] (getDevicesFold rs) r := by
      rw [getDevicesFold, getDevicesFold, List.foldl_append]
      rfl
    rw [hfold]
    by_cases hk : mac = r.source_mac
    · subst hk
      rw [getDevicesStep_lookup_self, ih]
      have hmemR : r.source_mac ∈ (rs ++ [r]).map (·.source_mac) := by
        rw [List.map_append]
        exact List.mem_append_right _ (List.mem_map.mpr
          ⟨r, List.mem_cons_self _ _, rfl⟩)
      rw [if_pos hmemR]
      by_cases hmem : r.source_mac ∈ rs.map (·.source_mac)
      · rw [if_pos hmem]
        show some (devUpd (specDeviceOf r.source_mac rs) r) = _
        rw [devUpd_existing r.source_mac rs r rfl]
      · rw [if_neg hmem]
        show some (devUpd (Device.init r.source_mac r.capture_dts) r) = _
        rw [devUpd_fresh r.source_mac rs r rfl (matchingOf_nil_of_not_mem hmem)]
    · rw [getDevicesStep_lookup_other _ _ hk, ih]
      have hmem_iff : (mac ∈ (rs ++ [r]).map (·.source_mac)) ↔
          (mac ∈ rs.map (·.source_mac)) := by
        rw [List.map_append]
        constructor
        · intro h
          rcases List.mem_append.mp h with h | h
          · exact h
          · rcases List.mem_map.mp h with ⟨x, hx, hxe⟩
            rcases List.mem_singleton.mp hx with rfl
            exact absurd hxe.symm hk
        · exact fun h => List.mem_append_left _ h
      have hspec : specDeviceOf mac (rs ++ [r]) = specDeviceOf mac rs := by
        rw [specDeviceOf, specDeviceOf,
          matchingOf_append_other mac rs r (fun h => hk h.symm)]
      by_cases hmem : mac ∈ rs.map (·.source_mac)
      · rw [if_pos hmem, if_pos (hmem_iff.mpr hmem), hspec]
      · rw [if_neg hmem, if_neg (fun h => hmem (hmem_iff.mp h))]

/-! ## Characterising `get_device` -/

theorem ssidFold_last (d : Device) (ms : List ProbeRequest) :
    (ms.foldl (fun d r =>
      if optStrTruthy r.target_ssid then d.add_ssid r.target_ssid else d) d).last_seen_dts
      = d.last_seen_dts := by
  induction ms generalizing d with
  | nil => rfl
  | cons r rest ih =>
    rw [List.foldl_cons, ih]
    by_cases hss : optStrTruthy r.target_ssid = true
    · rw [if_pos hss, add_ssid_last]
    · rw [if_neg hss]

theorem getLast?_append_some {β : Type} {b : List β} {x : β} (a : List β)
    (h : b.getLast? = some x) : (a ++ b).getLast? = some x := by
  have hb : b ≠ [] := by
    intro hnil
    rw [hnil] at h
    cases h
  rw [List.getLast?_append_of_ne_nil a hb, h]

theorem getDeviceChunkFold_last (mac : String) (d0 : Device) (c : List ProbeRequest) :
    (getDeviceChunkFold mac d0 c).last_seen_dts =
      match (c.filter (fun r => r.source_mac = mac)).getLast? with
      | some r => r.capture_dts
      | none => d0.last_seen_dts := by
  simp only [getDeviceChunkFold]
  cases hm : (c.filter (fun r => r.source_mac = mac)).getLast? with
  | some r => rfl
  | none =>
    dsimp only
    exact ssidFold_last d0 _

/-- Folding chunks through `get_device` sets `last_seen_dts` from the last
matching record of the flattened chunk sequence, keeping the initial value
when no record matches. -/
theorem getDevice_chunks_last (mac : String) (chunks : List (List ProbeRequest))
    (d0 : Device) :
    (chunks.foldl (getDeviceChunkFold mac) d0).last_seen_dts =
      match (chunks.flatten.filter (fun r => r.source_mac = mac)).getLast? with
      | some r => r.capture_dts
      | none => d0.last_seen_dts := by
  induction chunks generalizing d0 with
  | nil => rfl
  | cons c rest ih =>
    rw [List.foldl_cons, ih, List.flatten_cons, List.filter_append]
    cases hB : ((rest.flatten).filter (fun r => r.source_mac = mac)).getLast? with
    | some r2 =>
      rw [getLast?_append_some _ hB]
    | none =>
      have hnil : (rest.flatten).filter (fun r => r.source_mac = mac) = [] :=
        List.getLast?_eq_none_iff.mp hB
      rw [hnil, List.append_nil]
      dsimp only
      exact getDeviceChunkFold_last mac d0 c

/-! ## The append-only file format at character level -/

theorem writeRequests_aux (dumps : List (List Char)) (acc : List Char) :
    dumps.foldl pyWriteRequest acc = acc ++ (dumps.map (fun d => '\n' :: d)).flatten := by
  induction dumps generalizing acc with
  | nil => simp
  | cons d rest ih =>
    rw [List.foldl_cons, ih, List.map_cons, List.flatten_cons, pyWriteRequest]
    rw [List.append_assoc]

/-- The log file is exactly the concatenation of the dumps, each preceded
by its newline separator. -/
theorem writeRequests_eq_flatten (dumps : List (List Char)) :
    writeRequests dumps = (dumps.map (fun d => '\n' :: d)).flatten := by
  rw [writeRequests, writeRequests_aux, List.nil_append]

theorem pyLinesAux_nil (acc : List Char) :
    pyLinesAux [] acc = if acc = [] then [] else [acc.reverse] := rfl

theorem pyLinesAux_newline (cs acc : List Char) :
    pyLinesAux ('\n' :: cs) acc = (acc.reverse ++ ['\n']) :: pyLinesAux cs [] := by
  rw [pyLinesAux, if_pos rfl]

theorem pyLinesAux_shift (d : List Char) (hd : '\n' ∉ d) (rest acc : List Char) :
    pyLinesAux (d ++ rest) acc = pyLinesAux rest (d.reverse ++ acc) := by
  induction d generalizing acc with
  | nil => simp
  | cons c cs ih =>
    have hc : ¬ c = '\n' := fun h => hd (h ▸ List.mem_cons_self _ _)
    rw [List.cons_append, pyLinesAux, if_neg hc,
      ih (fun h => hd (List.mem_cons_of_mem _ h))]
    simp

theorem pyLinesAux_flatten (dumps : List (List Char)) (d : List Char)
    (hd : d ≠ []) (hdn : '\n' ∉ d)
    (hw : ∀ x ∈ dumps, x ≠ [] ∧ '\n' ∉ x) :
    pyLinesAux (d ++ (dumps.map (fun x => '\n' :: x)).flatten) [] =
      recordLines (d :: dumps) := by
  induction dumps generalizing d with
  | nil =>
    rw [List.map_nil, List.flatten_nil, pyLinesAux_shift d hdn [] []]
    rw [pyLinesAux_nil, if_neg (by intro h; apply hd; simpa using h)]
    simp [recordLines]
  | cons d2 rest ih =>
    rw [List.map_cons, List.flatten_cons, show ('\n' :: d2) ++ (rest.map
      (fun x => '\n' :: x)).flatten = '\n' :: (d2 ++ (rest.map
      (fun x => '\n' :: x)).flatten) from rfl]
    rw [pyLinesAux_shift d hdn _ [], pyLinesAux_newline]
    rw [ih d2 (hw d2 (List.mem_cons_self _ _)).1 (hw d2 (List.mem_cons_self _ _)).2
      (fun x hx => hw x (List.mem_cons_of_mem _ hx))]
    simp only [List.append_nil, List.reverse_reverse]
    rfl

/-- Reading back an append-only log splits it into the single leading blank
separator line followed by the record lines. -/
theorem pyLines_writeRequests (dumps : List (List Char))
    (hw : ∀ x ∈ dumps, x ≠ [] ∧ '\n' ∉ x) :
    pyLines (writeRequests dumps) =
      match dumps with
      | [] => []
      | _ => ['\n'] :: recordLines dumps := by
  cases dumps with
  | nil => rfl
  | cons d rest =>
    rw [pyLines, writeRequests_eq_flatten, List.map_cons, List.flatten_cons,
      show ('\n' :: d) ++ (rest.map (fun x => '\n' :: x)).flatten =
        '\n' :: (d ++ (rest.map (fun x => '\n' :: x)).flatten) from rfl,
      pyLinesAux_newline,
      pyLinesAux_flatten rest d (hw d (List.mem_cons_self _ _)).1
        (hw d (List.mem_cons_self _ _)).2
        (fun x hx => hw x (List.mem_cons_of_mem _ hx))]
    rfl

theorem mem_recordLines {dumps : List (List Char)} {l : List Char}
    (hl : l ∈ recordLines dumps) : ∃ d ∈ dumps, l = d ∨ l = d ++ ['\n'] := by
  induction dumps with
  | nil => cases hl
  | cons d rest ih =>
    cases rest with
    | nil =>
      have hre : recordLines [d] = [d] := rfl
      rw [hre] at hl
      exact ⟨d, List.mem_cons_self _ _, Or.inl (List.mem_singleton.mp hl)⟩
    | cons d2 rest2 =>
      have hre : recordLines (d :: d2 :: rest2) =
          (d ++ ['\n']) :: recordLines (d2 :: rest2) := rfl
      rw [hre] at hl
      rcases List.mem_cons.mp hl with he | hl'
      · exact ⟨d, List.mem_cons_self _ _, Or.inr he⟩
      · obtain ⟨x, hx, hor⟩ := ih hl'
        exact ⟨x, List.mem_cons_of_mem _ hx, hor⟩

/-! ## End-to-end pipeline for appended records

`add_request` serialises a request with `json_compact` and appends it; the
reader later decodes the line through `_load_requests`.  `appendLog` gives
the raw-line view of a log built by appending each record in turn: one
leading blank separator line, then one decodable record line per append
(carrying the record as the decoder will reconstruct it).  It is `none`
when some record cannot be serialised (`strftime` raises on a `None`
timestamp, so nothing would be written). -/

def appendLogLines : List ProbeRequest → Option (List LineKind)
  | [] => some []
  | r :: rest =>
    match r.jdict, appendLogLines rest with
    | some j, some ls => some (LineKind.record (decodeRecord j) :: ls)
    | _, _ => none

def appendLog (records : List ProbeRequest) : Option (List LineKind) :=
  (appendLogLines records).map (fun ls =>
    match ls with
    | [] => []
    | _ => LineKind.blank :: ls)

/-- `get_devices` on a log built by appending `records`, cutoff `now`,
no alias overlay. -/
def getDevicesPipeline (records : List ProbeRequest) (now : Dts) :
    Option (Except Unit (List (String × Device))) :=
  (appendLog records).map (fun lines => get_devices lines now [])

/-- `get_device` on a log built by appending `records`. -/
def getDevicePipeline (records : List ProbeRequest) (mac : String) (cutoff : Dts) :
    Option (Except Unit Device) :=
  (appendLog records).map (fun lines => get_device lines mac cutoff none)

/-- What a valid appended record reads back as: timestamp preserved, truthy
SSID replaced by its `repr`-escaped form. -/
def roundRecord (r : ProbeRequest) : ProbeRequest :=
  { r with target_ssid :=
      match r.target_ssid with
      | none => none
      | some s => if s ≠ "" then some (reprEscape s) else some s }

theorem decodeRecord_jdict {r : ProbeRequest} {d : Dts}
    (hdts : r.capture_dts = some d) (hv : validDts d = true)
    (hy : 1900 ≤ d.year) :
    r.jdict = some ⟨r.source_mac, formatDts d, r.target_ssid, r.signal_strength⟩ ∧
      decodeRecord ⟨r.source_mac, formatDts d, r.target_ssid, r.signal_strength⟩ =
        roundRecord r := by
  constructor
  · rw [ProbeRequest.jdict, hdts]
    dsimp only
    rw [if_pos hy]
  · rw [decodeRecord, roundRecord]
    dsimp only
    rw [strptime_formatDts hv, ← hdts]

theorem appendLogLines_eq (records : List ProbeRequest)
    (hwf : ∀ r ∈ records, ∃ d, r.capture_dts = some d ∧ validDts d = true ∧
      1900 ≤ d.year) :
    appendLogLines records = some (records.map (fun r => LineKind.record (roundRecord r))) := by
  induction records with
  | nil => rfl
  | cons r rest ih =>
    obtain ⟨d, hd, hv, hy⟩ := hwf r (List.mem_cons_self _ _)
    obtain ⟨hj, hdec⟩ := decodeRecord_jdict hd hv hy
    rw [appendLogLines, hj, ih (fun x hx => hwf x (List.mem_cons_of_mem _ hx))]
    dsimp only
    rw [hdec]
    rfl

theorem appendLog_eq (records : List ProbeRequest)
    (hwf : ∀ r ∈ records, ∃ d, r.capture_dts = some d ∧ validDts d = true ∧
      1900 ≤ d.year) :
    appendLog records =
      some (match records with
        | [] => []
        | _ => LineKind.blank :: records.map (fun r => LineKind.record (roundRecord r))) := by
  rw [appendLog, appendLogLines_eq records hwf]
  cases records with
  | nil => rfl
  | cons r rest => rfl

theorem roundRecord_mac (r : ProbeRequest) :
    (roundRecord r).source_mac = r.source_mac := rfl

theorem roundRecord_dts (r : ProbeRequest) :
    (roundRecord r).capture_dts = r.capture_dts := rfl

/-- Decoding the line view of an appended log gives back the round-tripped
records. -/
theorem decodeChunk_appended (rs : List ProbeRequest) :
    decodeChunk (LineKind.blank :: rs.map LineKind.record) = rs := by
  rw [decodeChunk_eq_filterMap]
  show List.filterMap LineKind.decodeOf (rs.map LineKind.record) = rs
  induction rs with
  | nil => rfl
  | cons p rest ih =>
    rw [List.map_cons, List.filterMap_cons]
    show p :: List.filterMap LineKind.decodeOf (rest.map LineKind.record) = p :: rest
    rw [ih]

theorem ne_nil_of_mem_chunksOf (n : Nat) (l : List α) :
    ∀ c ∈ chunksOf n l, c ≠ [] := by
  induction n, l using chunksOf.induct with
  | case1 m =>
    intro c hc
    rw [chunksOf_nil] at hc
    cases hc
  | case2 y ys =>
    intro c hc
    simp [chunksOf] at hc
  | case3 m y ys ih =>
    intro c hc
    rw [chunksOf] at hc
    rcases List.mem_cons.mp hc with rfl | hc'
    · rw [List.take_succ_cons]
      intro h
      cases h
    · exact ih c hc'

theorem decodeChunk_ne_of_record {c : List LineKind} (hc : c ≠ [])
    (hall : ∀ lk ∈ c, ∃ p, lk = LineKind.record p) : decodeChunk c ≠ [] := by
  cases c with
  | nil => exact absurd rfl hc
  | cons lk rest =>
    obtain ⟨p, rfl⟩ := hall lk (List.mem_cons_self _ _)
    rw [decodeChunk_eq_filterMap, List.filterMap_cons]
    intro h
    cases h

/-- Every chunk of an appended log decodes to at least one record when at
least one record was appended: chunks are nonempty, the only blank line is
the first line of the first chunk, and the chunk width is 10000. -/
theorem appended_chunks_decode_ne (ps : List ProbeRequest) (hne : ps ≠ []) :
    ∀ c ∈ chunksOf 10000 (LineKind.blank :: ps.map LineKind.record),
      decodeChunk c ≠ [] := by
  intro c hc
  rw [chunksOf_cons _ _ (by intro h; cases h) (by omega)] at hc
  rcases List.mem_cons.mp hc with rfl | hc'
  · rw [show (10000 : Nat) = 9999 + 1 from rfl, List.take_succ_cons]
    rw [show decodeChunk (LineKind.blank :: List.take 9999 (ps.map LineKind.record))
        = decodeChunk (List.take 9999 (ps.map LineKind.record)) from rfl]
    apply decodeChunk_ne_of_record
    · cases ps with
      | nil => exact absurd rfl hne
      | cons p rest =>
        rw [List.map_cons, show (9999 : Nat) = 9998 + 1 from rfl, List.take_succ_cons]
        intro h
        cases h
    · intro lk hlk
      have hmem : lk ∈ ps.map LineKind.record := List.mem_of_mem_take hlk
      rcases List.mem_map.mp hmem with ⟨p, -, rfl⟩
      exact ⟨p, rfl⟩
  · apply decodeChunk_ne_of_record (ne_nil_of_mem_chunksOf _ _ c hc')
    intro lk hlk
    have h1 := mem_of_mem_chunksOf _ _ c hc' lk hlk
    rw [show (10000 : Nat) = 9999 + 1 from rfl, List.drop_succ_cons] at h1
    have h2 : lk ∈ ps.map LineKind.record := List.mem_of_mem_drop h1
    rcases List.mem_map.mp h2 with ⟨p, -, rfl⟩
    exact ⟨p, rfl⟩

/-! ## Alias store lemmas -/

theorem dictInsert_lookup_self (d : List (String × String)) (k v : String) :
    lookupA (dictInsert d k v) k = some v := by
  rw [dictInsert]
  by_cases h : (lookupA d k).isSome = true
  · rw [if_pos h, lookupA_updateAssoc, if_pos rfl]
    cases hm : lookupA d k with
    | none =>
      rw [hm] at h
      cases h
    | some x => rfl
  · rw [if_neg h, lookupA_append_singleton]
    cases hm : lookupA d k with
    | none =>
      dsimp only
      rw [if_pos rfl]
    | some x => exact absurd (by rw [hm]; rfl) h

theorem dictInsert_lookup_other (d : List (String × String)) (k v k' : String)
    (hk : ¬ k = k') : lookupA (dictInsert d k v) k' = lookupA d k' := by
  rw [dictInsert]
  by_cases h : (lookupA d k).isSome = true
  · rw [if_pos h, lookupA_updateAssoc, if_neg hk]
  · rw [if_neg h, lookupA_append_singleton]
    cases hm : lookupA d k' with
    | none =>
      dsimp only
      rw [if_neg hk]
    | some x => rfl

theorem updateAssoc_eq_map {α : Type} (l : List (String × α)) (k : String) (f : α → α) :
    updateAssoc l k f = l.map (fun p => if p.1 = k then (p.1, f p.2) else p) := by
  induction l with
  | nil => rfl
  | cons p rest ih =>
    obtain ⟨k1, v1⟩ := p
    rw [updateAssoc, List.map_cons, ih]

/-- `get_aliases` builds a dict in which the last row wins, i.e. lookup in
the loaded dict agrees with first-match lookup in the reversed row list. -/
theorem get_aliases_lookup (rows : List (String × String)) (k : String) :
    lookupA (get_aliases rows) k = lookupA rows.reverse k := by
  induction rows using List.reverseRecOn with
  | nil => rfl
  | append_singleton rows p ih =>
    obtain ⟨k1, v1⟩ := p
    have h : get_aliases (rows ++ [(k1, v1)]) = dictInsert (get_aliases rows) k1 v1 := by
      rw [get_aliases, get_aliases, List.foldl_append]
      rfl
    rw [h, List.reverse_append,
      show ([(k1, v1)] : List (String × String)).reverse ++ rows.reverse
        = (k1, v1) :: rows.reverse from by simp]
    by_cases hk : k1 = k
    · subst hk
      rw [dictInsert_lookup_self]
      show some v1 = lookupA ((k1, v1) :: rows.reverse) k1
      rw [lookupA, if_pos rfl]
    · rw [dictInsert_lookup_other _ _ _ _ hk, ih]
      show lookupA rows.reverse k = lookupA ((k1, v1) :: rows.reverse) k
      rw [lookupA, if_neg hk]

/-- The decoder-escaped truthy SSID contribution of a source record. -/
def escTruthySsidOf (r : ProbeRequest) : Option String :=
  match r.target_ssid with
  | none => none
  | some s => if s = "" then none else some (reprEscape s)

theorem truthySsid_roundRecord (r : ProbeRequest) :
    truthySsidOf (roundRecord r) = escTruthySsidOf r := by
  cases hts : r.target_ssid with
  | none =>
    have h1 : (roundRecord r).target_ssid = none := by
      rw [roundRecord]
      dsimp only
      rw [hts]
    rw [truthySsidOf.eq_def, h1, escTruthySsidOf.eq_def, hts]
  | some s =>
    by_cases hse : s = ""
    · have h1 : (roundRecord r).target_ssid = some s := by
        rw [roundRecord]
        dsimp only
        rw [hts]
        dsimp only
        rw [if_neg (not_not_intro hse)]
      rw [truthySsidOf.eq_def, h1, escTruthySsidOf.eq_def, hts]
      dsimp only
      rw [if_pos hse, if_pos hse]
    · have h1 : (roundRecord r).target_ssid = some (reprEscape s) := by
        rw [roundRecord]
        dsimp only
        rw [hts]
        dsimp only
        rw [if_pos hse]
      rw [truthySsidOf.eq_def, h1, escTruthySsidOf.eq_def, hts]
      dsimp only
      rw [if_neg (reprEscape_ne_empty hse), if_neg hse]

theorem filter_map_roundRecord (mac : String) (records : List ProbeRequest) :
    (records.map roundRecord).filter (fun r => r.source_mac = mac)
      = (records.filter (fun r => r.source_mac = mac)).map roundRecord := by
  induction records with
  | nil => rfl
  | cons r rest ih =>
    rw [List.map_cons, List.filter_cons, List.filter_cons]
    by_cases h : r.source_mac = mac
    · rw [if_pos (show decide ((roundRecord r).source_mac = mac) = true from decide_eq_true h),
        if_pos (decide_eq_true h), List.map_cons, ih]
    · rw [if_neg (show ¬ (decide ((roundRecord r).source_mac = mac) = true) from by
          simpa using h),
        if_neg (by simpa using h), ih]

theorem filterMap_truthy_roundRecord (ms : List ProbeRequest) :
    (ms.map roundRecord).filterMap truthySsidOf = ms.filterMap escTruthySsidOf := by
  induction ms with
  | nil => rfl
  | cons r rest ih =>
    rw [List.map_cons, List.filterMap_cons, List.filterMap_cons,
      truthySsid_roundRecord, ih]

theorem map_dts_roundRecord (ms : List ProbeRequest) :
    (ms.map roundRecord).map (fun r => r.capture_dts) = ms.map (fun r => r.capture_dts) := by
  induction ms with
  | nil => rfl
  | cons r rest ih =>
    rw [List.map_cons, List.map_cons, List.map_cons]
    exact congrArg₂ (· :: ·) rfl ih

/-- A small-log chunking: at most one chunk when the file has at most
10000 lines. -/
theorem chunksOf_small {l : List α} (h : l.length ≤ 10000) (hne : l ≠ []) :
    chunksOf 10000 l = [l] := by
  rw [chunksOf_cons _ _ hne (by omega), List.take_of_length_le h,
    List.drop_eq_nil_of_le h, chunksOf_nil]

/-! ## Claims -/

/-- Concrete cutoff timestamp for the crash evaluations. -/
def exDts : Dts := ⟨2020, 1, 1, 0, 0, 0, 0⟩

/-- Claim C3: the specification demands that a chunk decoding to zero
records must not crash the reader (treat as empty, continue), and flags the
source as buggy here.  Indeed the source indexes `all[0]` on the empty
decode result, raising an uncaught `IndexError`: on a log whose only chunk
has no decodable record, every aggregation query raises instead of
returning.  The specification states the intent; the code is the slip. -/
theorem claim_C3 :
    readRequests [LineKind.corrupt] exDts = .error () ∧
    get_devices [LineKind.corrupt] exDts [] = .error () ∧
    get_device [LineKind.corrupt] "aa:bb:cc:dd:ee:01" exDts none = .error () ∧
    get_stations [LineKind.corrupt] exDts = .error () ∧
    get_station [LineKind.corrupt] "home" exDts = .error () := by
  have hch : chunksOf 10000 [LineKind.corrupt] = [[LineKind.corrupt]] :=
    chunksOf_small (by simp) (by intro h; cases h)
  have hrr : readRequests [LineKind.corrupt] exDts = .error () := by
    rw [readRequests, hch]
    rfl
  refine ⟨hrr, ?_, ?_, ?_, ?_⟩
  · rw [get_devices, hrr]
    rfl
  · rw [get_device, hrr]
    rfl
  · rw [get_stations, hrr]
    rfl
  · rw [get_station, hrr]
    rfl

theorem lookupA_map_overwrite (l : List (String × String)) (mac alias_ : String)
    (h : (lookupA l mac).isSome = true) :
    lookupA (l.map (fun p => if p.1 = mac then (p.1, alias_) else p)) mac = some alias_ := by
  induction l with
  | nil => exact (Bool.false_ne_true h).elim
  | cons p rest ih =>
    obtain ⟨k1, v1⟩ := p
    by_cases hk : k1 = mac
    · rw [List.map_cons]
      show lookupA ((if k1 = mac then (k1, alias_) else (k1, v1)) :: _) mac = some alias_
      rw [if_pos hk, lookupA, if_pos hk]
    · rw [List.map_cons]
      show lookupA ((if k1 = mac then (k1, alias_) else (k1, v1)) :: _) mac = some alias_
      rw [if_neg hk, lookupA, if_neg hk]
      apply ih
      rw [lookupA, if_neg hk] at h
      exact h

/-- Claim C6: `set_device_alias` without `force` on a MAC that already has
an alias raises `ValueError` before the alias file is opened for writing,
so the file stays untouched; with `force` it overwrites the entry and a
subsequent `get_aliases` maps that MAC to the new alias. -/
theorem claim_C6 (rows : List (String × String)) (mac alias_ : String) :
    ((lookupA (get_aliases rows) mac).isSome = true →
      set_device_alias rows mac alias_ false = .error ()) ∧
    (∃ rows2, set_device_alias rows mac alias_ true = .ok rows2 ∧
      lookupA (get_aliases rows2) mac = some alias_) := by
  constructor
  · intro h
    rw [set_device_alias]
    rw [if_pos ⟨rfl, h⟩]
  · refine ⟨dictInsert (get_aliases rows) mac alias_, ?_, ?_⟩
    · rw [set_device_alias]
      rw [if_neg (by rintro ⟨h, -⟩; cases h)]
    · rw [get_aliases_lookup, dictInsert]
      by_cases h : (lookupA (get_aliases rows) mac).isSome = true
      · rw [if_pos h, updateAssoc_eq_map, ← List.map_reverse]
        apply lookupA_map_overwrite
        rw [lookupA_isSome_iff] at h ⊢
        simpa using h
      · rw [if_neg h, List.reverse_append,
          show ([(mac, alias_)] : List (String × String)).reverse
            ++ (get_aliases rows).reverse
            = (mac, alias_) :: (get_aliases rows).reverse from by simp]
        rw [lookupA, if_pos rfl]

/-- Witness for claim C6 at a concrete alias file. -/
theorem claim_C6_witness :
    set_device_alias [("aa:bb", "phone")] "aa:bb" "tablet" false = .error () ∧
    (∃ rows2, set_device_alias [("aa:bb", "phone")] "aa:bb" "tablet" true = .ok rows2 ∧
      lookupA (get_aliases rows2) "aa:bb" = some "tablet") :=
  ⟨(claim_C6 [("aa:bb", "phone")] "aa:bb" "tablet").1 (by decide),
    (claim_C6 [("aa:bb", "phone")] "aa:bb" "tablet").2⟩

theorem add_ssid_inv (d : Device) (ssid : Option String)
    (h1 : d.known_ssids.Nodup) (h2 : "" ∉ d.known_ssids) :
    (d.add_ssid ssid).known_ssids.Nodup ∧ "" ∉ (d.add_ssid ssid).known_ssids := by
  cases ssid with
  | none => exact ⟨h1, h2⟩
  | some s =>
    have hform : d.add_ssid (some s) =
        if s ≠ "" ∧ s ∉ d.known_ssids then
          { d with known_ssids := d.known_ssids ++ [s] }
        else d := rfl
    rw [hform]
    by_cases hif : s ≠ "" ∧ s ∉ d.known_ssids
    · rw [if_pos hif]
      constructor
      · dsimp only
        rw [List.nodup_append]
        exact ⟨h1, List.nodup_singleton s, by
          intro x hx hxs
          rw [List.mem_singleton] at hxs
          exact hif.2 (hxs ▸ hx)⟩
      · dsimp only
        intro hmem
        rcases List.mem_append.mp hmem with hm | hm
        · exact h2 hm
        · exact hif.1 (List.mem_singleton.mp hm).symm
    · rw [if_neg hif]
      exact ⟨h1, h2⟩

theorem add_device_inv (st : Station) (mac : String)
    (h1 : st.associated_devices.Nodup) (h2 : "" ∉ st.associated_devices) :
    (st.add_device mac).associated_devices.Nodup ∧
      "" ∉ (st.add_device mac).associated_devices := by
  rw [Station.add_device]
  by_cases hif : mac ≠ "" ∧ mac ∉ st.associated_devices
  · rw [if_pos hif]
    constructor
    · dsimp only
      rw [List.nodup_append]
      exact ⟨h1, List.nodup_singleton mac, by
        intro x hx hxs
        rw [List.mem_singleton] at hxs
        exact hif.2 (hxs ▸ hx)⟩
    · dsimp only
      intro hmem
      rcases List.mem_append.mp hmem with hm | hm
      · exact h2 hm
      · exact hif.1 (List.mem_singleton.mp hm).symm
  · rw [if_neg hif]
    exact ⟨h1, h2⟩

/-- Claim C8: through any sequence of `add_ssid` calls on a Device and
`add_device` calls on a Station (starting, as the aggregation queries do,
from states without duplicates or empty entries), `known_ssids` and
`associated_devices` never acquire a duplicate, an empty entry, or a null
entry (a `None` SSID is rejected by the truthiness guard and entries are
strings, so no null can be stored). -/
theorem claim_C8 (d : Device) (ops : List (Option String))
    (st : Station) (ops2 : List String)
    (hd1 : d.known_ssids.Nodup) (hd2 : "" ∉ d.known_ssids)
    (hs1 : st.associated_devices.Nodup) (hs2 : "" ∉ st.associated_devices) :
    ((ops.foldl Device.add_ssid d).known_ssids.Nodup ∧
      "" ∉ (ops.foldl Device.add_ssid d).known_ssids) ∧
    ((ops2.foldl Station.add_device st).associated_devices.Nodup ∧
      "" ∉ (ops2.foldl Station.add_device st).associated_devices) := by
  constructor
  · clear hs1 hs2
    induction ops generalizing d with
    | nil => exact ⟨hd1, hd2⟩
    | cons o rest ih =>
      obtain ⟨ha, hb⟩ := add_ssid_inv d o hd1 hd2
      exact ih (d.add_ssid o) ha hb
  · clear hd1 hd2
    induction ops2 generalizing st with
    | nil => exact ⟨hs1, hs2⟩
    | cons o rest ih =>
      obtain ⟨ha, hb⟩ := add_device_inv st o hs1 hs2
      exact ih (st.add_device o) ha hb

/-- Witness for claim C8 at concrete operation sequences. -/
theorem claim_C8_witness :
    (([some "home", some "", none, some "office", some "home"].foldl Device.add_ssid
        (Device.init "aa:bb" none)).known_ssids.Nodup ∧
      "" ∉ ([some "home", some "", none, some "office", some "home"].foldl Device.add_ssid
        (Device.init "aa:bb" none)).known_ssids) ∧
    ((["m1", "", "m2", "m1"].foldl Station.add_device ⟨"home", []⟩).associated_devices.Nodup ∧
      "" ∉ (["m1", "", "m2", "m1"].foldl Station.add_device
        ⟨"home", []⟩).associated_devices) :=
  claim_C8 (Device.init "aa:bb" none) [some "home", some "", none, some "office", some "home"]
    ⟨"home", []⟩ ["m1", "", "m2", "m1"] (by decide) (by decide) (by decide) (by decide)

/-- Example serialized record for the append-format evaluations. -/
def exDump : List Char := ['{', 'x', '}']

/-- Claim C9 counterexample: `_write_request` writes `'\n' + dump`, so the
appended record is preceded by a newline separator but NOT terminated by
one: after appending to an empty file the file does not end in a
newline. -/
theorem claim_C9_counterexample :
    pyWriteRequest [] exDump ≠ ([] : List Char) ++ '\n' :: (exDump ++ ['\n']) ∧
    (pyWriteRequest [] exDump).getLast? ≠ some '\n' := by
  constructor <;> decide

/-- Claim C9 (amended): each append writes exactly one serialized record
preceded by a newline separator, with no trailing newline — the log file
after any sequence of appends is precisely the concatenation of
newline-prefixed records. -/
theorem claim_C9 (file dump : List Char) (dumps : List (List Char)) :
    pyWriteRequest file dump = file ++ '\n' :: dump ∧
    writeRequests dumps = (dumps.map (fun d => '\n' :: d)).flatten :=
  ⟨rfl, writeRequests_eq_flatten dumps⟩

/-- Claim C10: the chunked reader drops every line of length at most one
character before decoding anything; on an append-produced log the only
such line is the single leading blank separator line, so across any
chunking exactly the record lines survive the filter and no separator is
ever treated as a corrupt line. -/
theorem claim_C10 (dumps : List (List Char)) (n : Nat) (hn : n ≠ 0)
    (hw : ∀ d ∈ dumps, 2 ≤ d.length ∧ '\n' ∉ d) :
    ((chunksOf n (pyLines (writeRequests dumps))).map filterBlankLines).flatten
      = recordLines dumps ∧
    (∀ l ∈ pyLines (writeRequests dumps), ¬ 1 < l.length → l = ['\n']) := by
  have hw' : ∀ d ∈ dumps, d ≠ [] ∧ '\n' ∉ d := by
    intro d hd
    refine ⟨?_, (hw d hd).2⟩
    intro hnil
    have := (hw d hd).1
    rw [hnil] at this
    simp at this
  have hl := pyLines_writeRequests dumps hw'
  have hrec : ∀ l ∈ recordLines dumps, 1 < l.length := by
    intro l hlmem
    obtain ⟨x, hx, hor⟩ := mem_recordLines hlmem
    have hx2 := (hw x hx).1
    rcases hor with rfl | rfl
    · omega
    · rw [List.length_append, List.length_singleton]
      omega
  constructor
  · rw [show (chunksOf n (pyLines (writeRequests dumps))).map filterBlankLines
        = (chunksOf n (pyLines (writeRequests dumps))).map
          (fun c => c.filter (fun l => decide (1 < l.length))) from rfl]
    rw [flatten_map_filter, join_chunksOf n _ hn, hl]
    cases dumps with
    | nil => rfl
    | cons d rest =>
      rw [List.filter_cons, if_neg (by decide)]
      apply List.filter_eq_self.mpr
      intro l hlmem
      exact decide_eq_true (hrec l hlmem)
  · intro l hlmem hlen
    rw [hl] at hlmem
    cases dumps with
    | nil => cases hlmem
    | cons d rest =>
      rcases List.mem_cons.mp hlmem with rfl | hlm
      · rfl
      · exact absurd (hrec l hlm) hlen

/-- Witness for claim C10 at a concrete two-record log and the default
chunk size. -/
theorem claim_C10_witness :
    ((10000 : Nat) ≠ 0 ∧
      (∀ d ∈ [['{', 'a', '}'], ['{', 'b', '}']], 2 ≤ d.length ∧ '\n' ∉ d)) ∧
    (((chunksOf 10000 (pyLines (writeRequests [['{', 'a', '}'], ['{', 'b', '}']]))).map
        filterBlankLines).flatten = recordLines [['{', 'a', '}'], ['{', 'b', '}']] ∧
      (∀ l ∈ pyLines (writeRequests [['{', 'a', '}'], ['{', 'b', '}']]),
        ¬ 1 < l.length → l = ['\n'])) :=
  ⟨⟨by decide, by decide⟩,
    claim_C10 [['{', 'a', '}'], ['{', 'b', '}']] 10000 (by decide) (by decide)⟩

/-- Concrete request with a non-ASCII SSID. -/
def exReqC5 : ProbeRequest :=
  { source_mac := "aa:bb:cc:dd:ee:01", capture_dts := some exDts
    target_ssid := some "é", signal_strength := some (-42) }

/-- Claim C5 counterexample: the claim asserts `decode(encode(r)) == r`
also for non-ASCII SSIDs, but `_load_requests` maps a truthy SSID through
`repr(...)[2:-1]`, so the SSID `"é"` decodes to the four-character escape
`"\xe9"` and the round trip is not the identity. -/
theorem claim_C5_counterexample :
    (exReqC5.jdict).map decodeRecord ≠ some exReqC5 ∧
    ((exReqC5.jdict).map decodeRecord).map (fun r => r.target_ssid)
      = some (some "\\xe9") := by
  constructor <;> decide

/-- Claim C5 (amended): for a request whose timestamp is a valid datetime
in the range `strftime` accepts (year at least 1900 — Python 2 `strftime`
raises below it, so such a record is never serialised at all), decoding the
compact serialisation gives the request back exactly when the
`repr`-escape leaves its SSID unchanged: always for a null or empty SSID,
and for a nonempty SSID precisely when `repr(ssid)[2:-1] == ssid` — which
holds in particular for printable ASCII without backslash or single
quote.  The original universal round-trip claim fails, e.g. the SSID
`"é"` decodes to the escape `"\xe9"` (see the counterexample). -/
theorem claim_C5 (r : ProbeRequest) (d : Dts)
    (hdts : r.capture_dts = some d) (hv : validDts d = true)
    (hy : 1900 ≤ d.year) :
    ((r.jdict).map decodeRecord = some r ↔
      (r.target_ssid = none ∨ r.target_ssid = some "" ∨
        (∃ s, r.target_ssid = some s ∧ reprEscape s = s))) ∧
    (∀ s, r.target_ssid = some s → (∀ c ∈ s.toList, reprPlain c) →
      (r.jdict).map decodeRecord = some r) := by
  obtain ⟨hj, hdec⟩ := decodeRecord_jdict hdts hv hy
  have hmain : (r.jdict).map decodeRecord = some r ↔
      (r.target_ssid = none ∨ r.target_ssid = some "" ∨
        (∃ s, r.target_ssid = some s ∧ reprEscape s = s)) := by
    rw [hj]
    show some (decodeRecord _) = some r ↔ _
    rw [hdec, roundRecord]
    constructor
    · intro h
      injection h with h2
      have ht : (match r.target_ssid with
          | none => none
          | some s => if s ≠ "" then some (reprEscape s) else some s
          : Option String) = r.target_ssid := congrArg ProbeRequest.target_ssid h2
      cases hts : r.target_ssid with
      | none => exact Or.inl rfl
      | some s =>
        rw [hts] at ht
        dsimp only at ht
        by_cases hse : s = ""
        · exact Or.inr (Or.inl (by rw [hse]))
        · rw [if_pos hse] at ht
          injection ht with ht2
          exact Or.inr (Or.inr ⟨s, rfl, ht2⟩)
    · intro h
      have hpres : (match r.target_ssid with
          | none => none
          | some s => if s ≠ "" then some (reprEscape s) else some s
          : Option String) = r.target_ssid := by
        rcases h with h | h | ⟨s, h, hfix⟩
        · rw [h]
        · rw [h]
          dsimp only
          rw [if_neg (not_not_intro rfl)]
        · rw [h]
          dsimp only
          by_cases hse : s = ""
          · rw [if_neg (not_not_intro hse), hse]
          · rw [if_pos hse, hfix]
      rw [hpres]
  refine ⟨hmain, ?_⟩
  intro s hts hplain
  by_cases hse : s = ""
  · exact hmain.mpr (Or.inr (Or.inl (by rw [hts, hse])))
  · exact hmain.mpr (Or.inr (Or.inr ⟨s, hts, reprEscape_plain hplain⟩))

instance (c : Char) : Decidable (reprPlain c) := by
  unfold reprPlain
  infer_instance

/-- Witness for claim C5 at a concrete plain-ASCII request. -/
theorem claim_C5_witness :
    ((⟨"aa:bb:cc:dd:ee:01", some exDts, some "home", some (-42)⟩ :
        ProbeRequest).capture_dts = some exDts ∧ validDts exDts = true ∧
      1900 ≤ exDts.year) ∧
    ((⟨"aa:bb:cc:dd:ee:01", some exDts, some "home", some (-42)⟩ :
        ProbeRequest).jdict).map decodeRecord =
      some ⟨"aa:bb:cc:dd:ee:01", some exDts, some "home", some (-42)⟩ :=
  ⟨⟨rfl, by decide, by decide⟩,
    (claim_C5 ⟨"aa:bb:cc:dd:ee:01", some exDts, some "home", some (-42)⟩ exDts rfl
      (by decide) (by decide)).2 "home" rfl (by decide)⟩

/-- Witness cutoff for claim C7. -/
def exCut7 : Dts := ⟨2021, 1, 1, 0, 0, 0, 0⟩

/-- The record-eligibility predicate of the amended claim C2: matching MAC
and capture timestamp strictly before the cutoff. -/
def eligibleC2 (mac : String) (cutoff : Dts) (r : ProbeRequest) : Bool :=
  decide (r.source_mac = mac) &&
    (match r.capture_dts with
     | some d => Dts.lt d cutoff
     | none => false)

/-- Commuting the yield filter and the MAC filter of `get_device` through
the round-tripped record list gives the eligibility filter of the amended
claim C2. -/
theorem filter_lt_mac_roundRecord (mac : String) (cutoff : Dts)
    (records : List ProbeRequest)
    (hwf : ∀ r ∈ records, ∃ d, r.capture_dts = some d) :
    ((records.map roundRecord).filter
        (fun r => pyDtsLt r.capture_dts (some cutoff))).filter
        (fun r => r.source_mac = mac)
      = (records.filter (eligibleC2 mac cutoff)).map roundRecord := by
  induction records with
  | nil => rfl
  | cons r rest ih =>
    obtain ⟨d, hd⟩ := hwf r (List.mem_cons_self _ _)
    have ihh := ih (fun x hx => hwf x (List.mem_cons_of_mem _ hx))
    rw [List.map_cons, List.filter_cons]
    cases hlt : Dts.lt d cutoff with
    | true =>
      rw [if_pos (show pyDtsLt (roundRecord r).capture_dts (some cutoff) = true from by
        rw [roundRecord_dts, hd]
        exact hlt)]
      rw [List.filter_cons]
      cases hmac : decide (r.source_mac = mac) with
      | true =>
        rw [if_pos (show decide ((roundRecord r).source_mac = mac) = true from hmac)]
        rw [List.filter_cons, if_pos (show eligibleC2 mac cutoff r = true from by
          rw [eligibleC2, hd]
          show (decide (r.source_mac = mac) && Dts.lt d cutoff) = true
          rw [hmac, hlt]
          rfl)]
        rw [List.map_cons, ihh]
      | false =>
        rw [if_neg (show ¬ (decide ((roundRecord r).source_mac = mac) = true) from by
          intro hc
          have hc2 : decide (r.source_mac = mac) = true := hc
          rw [hmac] at hc2
          exact Bool.false_ne_true hc2)]
        rw [List.filter_cons, if_neg (show ¬ (eligibleC2 mac cutoff r = true) from by
          intro hc
          have hc2 : (decide (r.source_mac = mac) && (match r.capture_dts with
            | some d => Dts.lt d cutoff
            | none => false)) = true := hc
          rw [hmac, Bool.false_and] at hc2
          exact Bool.false_ne_true hc2)]
        exact ihh
    | false =>
      rw [if_neg (show ¬ (pyDtsLt (roundRecord r).capture_dts (some cutoff) = true) from by
        rw [roundRecord_dts, hd]
        intro hc
        have hc2 : Dts.lt d cutoff = true := hc
        rw [hlt] at hc2
        exact Bool.false_ne_true hc2)]
      rw [List.filter_cons, if_neg (show ¬ (eligibleC2 mac cutoff r = true) from by
        intro hc
        have hc2 : (decide (r.source_mac = mac) && (match r.capture_dts with
          | some d => Dts.lt d cutoff
          | none => false)) = true := hc
        rw [hd] at hc2
        have hc3 : (decide (r.source_mac = mac) && Dts.lt d cutoff) = true := hc2
        rw [hlt, Bool.and_false] at hc3
        exact Bool.false_ne_true hc3)]
      exact ihh

/-- A record captured exactly at the cutoff instant. -/
def c2r : ProbeRequest := ⟨"aa", some exDts, none, none⟩

/-- Claim C2 counterexample: the claim restricts to records with
`capture_dts <= cutoff`, but the yield filter of `_read_requests_chunk` is
strict (`r.capture_dts < load_dts`).  A single record captured exactly at
the cutoff matches the MAC and satisfies `capture_dts <= cutoff`, so the
claim promises `last_seen_dts = capture_dts`; the code drops the record
and returns a Device with `last_seen_dts` unset. -/
theorem claim_C2_counterexample :
    getDevicePipeline [c2r] "aa" exDts
      = some (.ok ⟨"aa", [], none, none, none, none⟩) ∧
    c2r.source_mac = "aa" ∧ c2r.capture_dts = some exDts ∧
    some exDts ≠ (none : Option Dts) := by
  refine ⟨?_, rfl, rfl, by decide⟩
  have hlog : appendLog [c2r] = some [LineKind.blank, LineKind.record c2r] := by
    decide
  rw [getDevicePipeline, hlog]
  show some (get_device [LineKind.blank, LineKind.record c2r] "aa" exDts none) = _
  have hch : chunksOf 10000 [LineKind.blank, LineKind.record c2r]
      = [[LineKind.blank, LineKind.record c2r]] :=
    chunksOf_small (by simp) (by intro h; cases h)
  rw [get_device, readRequests, hch]
  rfl

/-- Claim C2 (amended): for well-formed appended records (valid datetimes
in the `strftime`-serialisable range, year at least 1900 — Python 2
`strftime` raises below it and appends nothing) none of which is captured
after the cutoff, `get_device(mac, cutoff)` — considering exactly the
records with `capture_dts` STRICTLY before the cutoff (the yield filter
is `<`, not `<=`) — returns a Device whose `last_seen_dts` is the
`capture_dts` of the last matching record in file order, and leaves it
unset when no record matches. -/
theorem claim_C2 (records : List ProbeRequest) (mac : String) (cutoff : Dts)
    (hwf : ∀ r ∈ records, ∃ d, r.capture_dts = some d ∧ validDts d = true ∧
      1900 ≤ d.year ∧ Dts.lt cutoff d = false) :
    ∃ dev, getDevicePipeline records mac cutoff = some (.ok dev) ∧
      dev.last_seen_dts =
        ((records.filter (eligibleC2 mac cutoff)).getLast?).bind
          (fun r => r.capture_dts) ∧
      (records.filter (eligibleC2 mac cutoff) = [] → dev.last_seen_dts = none) := by
  cases records with
  | nil =>
    refine ⟨⟨mac, [], none, none, none, none⟩, ?_, rfl, fun _ => rfl⟩
    show some (get_device [] mac cutoff none) = _
    rw [get_device, readRequests, chunksOf_nil]
    rfl
  | cons r0 rest =>
    have hwf' : ∀ r ∈ r0 :: rest, ∃ d, r.capture_dts = some d ∧ validDts d = true ∧
        1900 ≤ d.year :=
      fun r hr => (hwf r hr).imp (fun d hd => ⟨hd.1, hd.2.1, hd.2.2.1⟩)
    have hlog := appendLog_eq (r0 :: rest) hwf'
    have hmm : (r0 :: rest).map (fun r => LineKind.record (roundRecord r))
        = ((r0 :: rest).map roundRecord).map LineKind.record := by
      rw [List.map_map]
      rfl
    have hne : ∀ c ∈ chunksOf 10000 (LineKind.blank ::
        (r0 :: rest).map (fun r => LineKind.record (roundRecord r))),
        decodeChunk c ≠ [] := by
      rw [hmm]
      exact appended_chunks_decode_ne _ (by simp)
    have hdec : decodeChunk (LineKind.blank ::
        (r0 :: rest).map (fun r => LineKind.record (roundRecord r)))
        = (r0 :: rest).map roundRecord := by
      rw [hmm]
      exact decodeChunk_appended _
    have hgt : ∀ p ∈ decodeChunk (LineKind.blank ::
        (r0 :: rest).map (fun r => LineKind.record (roundRecord r))),
        pyDtsGt p.capture_dts (some cutoff) = false := by
      rw [hdec]
      intro p hp
      rcases List.mem_map.mp hp with ⟨r, hr, rfl⟩
      obtain ⟨d, hd, -, -, hlt⟩ := hwf r hr
      rw [roundRecord_dts, hd]
      exact hlt
    have hread := readRequests_ok _ cutoff hne hgt
    have hdev : get_device (LineKind.blank ::
        (r0 :: rest).map (fun r => LineKind.record (roundRecord r))) mac cutoff none
        = .ok (((chunksOf 10000 (LineKind.blank ::
            (r0 :: rest).map (fun r => LineKind.record (roundRecord r)))).map
            (fun c => (decodeChunk c).filter
              (fun r => pyDtsLt r.capture_dts (some cutoff)))).foldl
            (getDeviceChunkFold mac) ⟨mac, [], none, none, none, none⟩) := by
      rw [get_device, hread]
      rfl
    refine ⟨((chunksOf 10000 (LineKind.blank ::
        (r0 :: rest).map (fun r => LineKind.record (roundRecord r)))).map
        (fun c => (decodeChunk c).filter
          (fun r => pyDtsLt r.capture_dts (some cutoff)))).foldl
        (getDeviceChunkFold mac) ⟨mac, [], none, none, none, none⟩, ?_, ?_, ?_⟩
    · rw [getDevicePipeline, hlog]
      show some (get_device (LineKind.blank ::
        (r0 :: rest).map (fun r => LineKind.record (roundRecord r))) mac cutoff none) = _
      rw [hdev]
    · rw [getDevice_chunks_last, flatten_yield, hdec]
      rw [filter_lt_mac_roundRecord mac cutoff (r0 :: rest)
        (fun r hr => ((hwf r hr).imp (fun d hd => hd.1)))]
      rw [List.getLast?_map]
      cases hL : ((r0 :: rest).filter (eligibleC2 mac cutoff)).getLast? with
      | none => rfl
      | some r => rfl
    · intro hnil
      rw [getDevice_chunks_last, flatten_yield, hdec]
      rw [filter_lt_mac_roundRecord mac cutoff (r0 :: rest)
        (fun r hr => ((hwf r hr).imp (fun d hd => hd.1)))]
      rw [hnil]
      rfl

/-- Witness for claim C2 at a concrete one-record log with the cutoff
strictly after the record. -/
theorem claim_C2_witness :
    (∀ r ∈ [c2r], ∃ d, r.capture_dts = some d ∧ validDts d = true ∧
      1900 ≤ d.year ∧ Dts.lt exCut7 d = false) ∧
    (∃ dev, getDevicePipeline [c2r] "aa" exCut7 = some (.ok dev) ∧
      dev.last_seen_dts =
        (([c2r].filter (eligibleC2 "aa" exCut7)).getLast?).bind
          (fun r => r.capture_dts) ∧
      ([c2r].filter (eligibleC2 "aa" exCut7) = [] → dev.last_seen_dts = none)) :=
  ⟨fun r hr => by
      rcases List.mem_singleton.mp hr with rfl
      exact ⟨exDts, rfl, by decide, by decide, by decide⟩,
    claim_C2 [c2r] "aa" exCut7 (fun r hr => by
      rcases List.mem_singleton.mp hr with rfl
      exact ⟨exDts, rfl, by decide, by decide, by decide⟩)⟩

theorem map_mac_roundRecord (ms : List ProbeRequest) :
    (ms.map roundRecord).map (fun r => r.source_mac) = ms.map (fun r => r.source_mac) := by
  induction ms with
  | nil => rfl
  | cons r rest ih =>
    rw [List.map_cons, List.map_cons, List.map_cons]
    exact congrArg₂ (· :: ·) rfl ih

theorem map_dts_eq_some_filterMap (X : List ProbeRequest)
    (h : ∀ r ∈ X, ∃ d, r.capture_dts = some d) :
    X.map (fun r => r.capture_dts) = (X.filterMap (fun r => r.capture_dts)).map some := by
  induction X with
  | nil => rfl
  | cons r rest ih =>
    obtain ⟨d, hd⟩ := h r (List.mem_cons_self _ _)
    rw [List.map_cons, List.filterMap_cons, hd]
    show some d :: _ = some d :: _
    rw [ih (fun x hx => h x (List.mem_cons_of_mem _ hx))]

/-- The SSID list that claim C1 promises for one MAC (refinement
comparison definition, written from the specification text: the
de-duplicated list of the MAC's non-null probed SSIDs in order of first
appearance). -/
def claimSsidsOf (mac : String) (records : List ProbeRequest) : List String :=
  firstDedup ((records.filter (fun r => r.source_mac = mac)).filterMap
    (fun r => r.target_ssid))

/-- A later timestamp for the claim C1 examples. -/
def exDts2 : Dts := ⟨2020, 1, 2, 0, 0, 0, 0⟩

/-- First counterexample record: empty-string SSID. -/
def c1r1 : ProbeRequest := ⟨"m", some exDts, some "", none⟩

/-- Second counterexample record: non-ASCII SSID. -/
def c1r2 : ProbeRequest := ⟨"m", some exDts2, some "é", none⟩

/-- Claim C1 counterexample: the claim promises `known_ssids` equal to the
de-duplicated non-null SSIDs of the MAC, here `["", "é"]`.  The code drops
the empty SSID (`if ssid:` is false for `''`) and stores the non-ASCII
SSID as its `repr`-escape `"\xe9"`, so `get_devices` returns
`known_ssids = ["\xe9"]`. -/
theorem claim_C1_counterexample :
    getDevicesPipeline [c1r1, c1r2] exCut7
      = some (.ok [("m", ⟨"m", ["\\xe9"], none, none, some exDts2, none⟩)]) ∧
    claimSsidsOf "m" [c1r1, c1r2] = ["", "é"] ∧
    (["\\xe9"] : List String) ≠ ["", "é"] := by
  refine ⟨?_, by decide, by decide⟩
  have hlog : appendLog [c1r1, c1r2] = some [LineKind.blank,
      LineKind.record ⟨"m", some exDts, some "", none⟩,
      LineKind.record ⟨"m", some exDts2, some "\\xe9", none⟩] := by
    decide
  rw [getDevicesPipeline, hlog]
  show some (get_devices [LineKind.blank,
      LineKind.record ⟨"m", some exDts, some "", none⟩,
      LineKind.record ⟨"m", some exDts2, some "\\xe9", none⟩] exCut7 []) = _
  have hch : chunksOf 10000 [LineKind.blank,
      LineKind.record ⟨"m", some exDts, some "", none⟩,
      LineKind.record ⟨"m", some exDts2, some "\\xe9", none⟩]
      = [[LineKind.blank,
          LineKind.record ⟨"m", some exDts, some "", none⟩,
          LineKind.record ⟨"m", some exDts2, some "\\xe9", none⟩]] :=
    chunksOf_small (by simp) (by intro h; cases h)
  rw [get_devices, readRequests, hch]
  rfl

/-- Claim C1 (amended): for well-formed appended records (valid datetimes
in the `strftime`-serialisable range, year at least 1900 — Python 2
`strftime` raises below it and appends nothing) captured strictly before
the query instant `now`, `get_devices(now)` returns a mapping whose keys
are exactly the distinct source MACs; each Device carries the maximum
capture timestamp of its records, and `known_ssids` is the de-duplicated
first-appearance list of the decoder-escaped forms of the MAC's non-null,
NON-EMPTY SSIDs: empty SSIDs are dropped by the truthiness guards, and a
non-ASCII or non-printable SSID appears as its `repr`-escape rather than
as the probed SSID itself (see the counterexample). -/
theorem claim_C1 (records : List ProbeRequest) (now : Dts)
    (hwf : ∀ r ∈ records, ∃ d, r.capture_dts = some d ∧ validDts d = true ∧
      1900 ≤ d.year ∧ Dts.lt d now = true) :
    ∃ m, getDevicesPipeline records now = some (.ok m) ∧
      (∀ mac, (lookupA m mac).isSome = true ↔
        mac ∈ records.map (fun r => r.source_mac)) ∧
      (∀ mac dev, lookupA m mac = some dev →
        dev.known_ssids = firstDedup ((records.filter
          (fun r => r.source_mac = mac)).filterMap escTruthySsidOf) ∧
        ∃ mx, dev.last_seen_dts = some mx ∧
          mx ∈ (records.filter (fun r => r.source_mac = mac)).filterMap
            (fun r => r.capture_dts) ∧
          ∀ x ∈ (records.filter (fun r => r.source_mac = mac)).filterMap
            (fun r => r.capture_dts), Dts.lt mx x = false) := by
  cases records with
  | nil =>
    refine ⟨[], ?_, ?_, ?_⟩
    · show some (get_devices [] now []) = _
      rw [get_devices, readRequests, chunksOf_nil]
      rfl
    · intro mac
      simp [lookupA]
    · intro mac dev h
      rw [show lookupA ([] : List (String × Device)) mac = none from rfl] at h
      cases h
  | cons r0 rest =>
    have hwf' : ∀ r ∈ r0 :: rest, ∃ d, r.capture_dts = some d ∧ validDts d = true ∧
        1900 ≤ d.year :=
      fun r hr => (hwf r hr).imp (fun d hd => ⟨hd.1, hd.2.1, hd.2.2.1⟩)
    have hlog := appendLog_eq (r0 :: rest) hwf'
    have hmm : (r0 :: rest).map (fun r => LineKind.record (roundRecord r))
        = ((r0 :: rest).map roundRecord).map LineKind.record := by
      rw [List.map_map]
      rfl
    have hne : ∀ c ∈ chunksOf 10000 (LineKind.blank ::
        (r0 :: rest).map (fun r => LineKind.record (roundRecord r))),
        decodeChunk c ≠ [] := by
      rw [hmm]
      exact appended_chunks_decode_ne _ (by simp)
    have hdec : decodeChunk (LineKind.blank ::
        (r0 :: rest).map (fun r => LineKind.record (roundRecord r)))
        = (r0 :: rest).map roundRecord := by
      rw [hmm]
      exact decodeChunk_appended _
    have hgt : ∀ p ∈ decodeChunk (LineKind.blank ::
        (r0 :: rest).map (fun r => LineKind.record (roundRecord r))),
        pyDtsGt p.capture_dts (some now) = false := by
      rw [hdec]
      intro p hp
      rcases List.mem_map.mp hp with ⟨r, hr, rfl⟩
      obtain ⟨d, hd, -, -, hlt⟩ := hwf r hr
      rw [roundRecord_dts, hd]
      exact Dts.lt_asymm hlt
    have hdeveq := get_devices_eq _ now [] hne hgt
    have hfilter : (decodeChunk (LineKind.blank ::
        (r0 :: rest).map (fun r => LineKind.record (roundRecord r)))).filter
        (fun r => pyDtsLt r.capture_dts (some now)) = (r0 :: rest).map roundRecord := by
      rw [hdec]
      apply List.filter_eq_self.mpr
      intro a ha
      rcases List.mem_map.mp ha with ⟨r, hr, rfl⟩
      obtain ⟨d, hd, -, -, hlt⟩ := hwf r hr
      rw [roundRecord_dts, hd]
      exact hlt
    rw [hfilter] at hdeveq
    refine ⟨getDevicesFold ((r0 :: rest).map roundRecord), ?_, ?_, ?_⟩
    · rw [getDevicesPipeline, hlog]
      show some (get_devices (LineKind.blank ::
        (r0 :: rest).map (fun r => LineKind.record (roundRecord r))) now []) = _
      rw [hdeveq]
      rfl
    · intro mac
      rw [getDevicesFold_lookup, map_mac_roundRecord]
      by_cases hmem : mac ∈ (r0 :: rest).map (fun r => r.source_mac)
      · rw [if_pos hmem]
        exact ⟨fun _ => hmem, fun _ => rfl⟩
      · rw [if_neg hmem]
        exact ⟨fun hx => absurd hx (Bool.false_ne_true), fun hx => absurd hx hmem⟩
    · intro mac dev h
      rw [getDevicesFold_lookup] at h
      by_cases hmem : mac ∈ ((r0 :: rest).map roundRecord).map (fun r => r.source_mac)
      case neg =>
        rw [if_neg hmem] at h
        cases h
      case pos =>
        rw [if_pos hmem] at h
        injection h with h
        subst h
        constructor
        · show firstDedup ((matchingOf mac ((r0 :: rest).map roundRecord)).filterMap
            truthySsidOf) = _
          rw [matchingOf, filter_map_roundRecord, filterMap_truthy_roundRecord]
        · have hlast : (specDeviceOf mac ((r0 :: rest).map roundRecord)).last_seen_dts
              = pyMaxDts ((((r0 :: rest).filter (fun r => r.source_mac = mac)).filterMap
                (fun r => r.capture_dts)).map some) := by
            show pyMaxDts ((matchingOf mac ((r0 :: rest).map roundRecord)).map
              (fun r => r.capture_dts)) = _
            rw [matchingOf, filter_map_roundRecord, map_dts_roundRecord]
            rw [map_dts_eq_some_filterMap _ (fun r hr =>
              ((hwf r (List.mem_of_mem_filter hr)).imp (fun d hd => hd.1)))]
          rw [map_mac_roundRecord] at hmem
          rcases List.mem_map.mp hmem with ⟨r1, hr1, hmac⟩
          have hr1f : r1 ∈ (r0 :: rest).filter (fun r => r.source_mac = mac) :=
            List.mem_filter.mpr ⟨hr1, decide_eq_true hmac⟩
          obtain ⟨d1, hd1, -, -, -⟩ := hwf r1 hr1
          have hdne : ((r0 :: rest).filter (fun r => r.source_mac = mac)).filterMap
              (fun r => r.capture_dts) ≠ [] := by
            intro hnil
            have hin : d1 ∈ ((r0 :: rest).filter (fun r => r.source_mac = mac)).filterMap
                (fun r => r.capture_dts) := List.mem_filterMap.mpr ⟨r1, hr1f, hd1⟩
            rw [hnil] at hin
            cases hin
          obtain ⟨mx, hmx, hmem2, hmax⟩ := pyMaxDts_spec _ hdne
          exact ⟨mx, by rw [hlast, hmx], hmem2, hmax⟩

/-- First witness record for claim C1. -/
def c1w1 : ProbeRequest := ⟨"m1", some exDts, some "home", none⟩

/-- Second witness record for claim C1. -/
def c1w2 : ProbeRequest := ⟨"m2", some exDts2, none, none⟩

/-- Witness for claim C1 at a concrete two-record log. -/
theorem claim_C1_witness :
    (∀ r ∈ [c1w1, c1w2], ∃ d, r.capture_dts = some d ∧ validDts d = true ∧
      1900 ≤ d.year ∧ Dts.lt d exCut7 = true) ∧
    (∃ m, getDevicesPipeline [c1w1, c1w2] exCut7 = some (.ok m) ∧
      (∀ mac, (lookupA m mac).isSome = true ↔
        mac ∈ [c1w1, c1w2].map (fun r => r.source_mac)) ∧
      (∀ mac dev, lookupA m mac = some dev →
        dev.known_ssids = firstDedup (([c1w1, c1w2].filter
          (fun r => r.source_mac = mac)).filterMap escTruthySsidOf) ∧
        ∃ mx, dev.last_seen_dts = some mx ∧
          mx ∈ ([c1w1, c1w2].filter (fun r => r.source_mac = mac)).filterMap
            (fun r => r.capture_dts) ∧
          ∀ x ∈ ([c1w1, c1w2].filter (fun r => r.source_mac = mac)).filterMap
            (fun r => r.capture_dts), Dts.lt mx x = false)) := by
  have hwf : ∀ r ∈ [c1w1, c1w2], ∃ d, r.capture_dts = some d ∧ validDts d = true ∧
      1900 ≤ d.year ∧ Dts.lt d exCut7 = true := by
    intro r hr
    rcases List.mem_cons.mp hr with rfl | hr2
    · exact ⟨exDts, rfl, by decide, by decide, by decide⟩
    · rcases List.mem_singleton.mp hr2 with rfl
      exact ⟨exDts2, rfl, by decide, by decide, by decide⟩
  exact ⟨hwf, claim_C1 [c1w1, c1w2] exCut7 hwf⟩

end WifiTracker
